import Mathlib

/-! Aeropuerto: admission, tower gate and runway pool.

A shallow embedding of `internal/aeropuerto/main.go` and of the harness
`ejecutarPrueba` of `internal/aeropuerto/aeropuerto_test.go`.

* Go `int` values are modelled by `Int`; every counter of the program stays
  far below the 64-bit range.
* Goroutines are modelled by explicit program counters; one transition is one
  lock-protected critical section (or one channel operation) of the source,
  and a schedule is a list of events, each naming the goroutine that moves.
* The wall clock is not modelled: a timeout may fire at any moment at which
  the goroutine waits, and the final accounting may be taken in any state.
* `fmt.Printf` output and `time.Sleep` delays are not part of the state.
-/

namespace Aeropuerto

/-! ## Data model (main.go, lines 18-54) -/

/-- The struct `Avion`. -/
structure Avion where
  ID : Int
  Categoria : String
  NumPasajeros : Int
  deriving DecidableEq, Repr

/-- The struct `Pista`, without its mutex. -/
structure Pista where
  ID : Int
  ocupada : Bool
  deriving DecidableEq, Repr

/-- The package variable `numPistas`. -/
def numPistas : Nat := 3

/-- The package variable `maxEspera`. -/
def maxEspera : Int := 5

/-! ## Pure functions (main.go, lines 138-168) -/

/-- The function `puedeAterrizar`: the `switch` is a chain of comparisons. -/
def puedeAterrizar (avion : Avion) (estadoActual : Int) : Bool :=
  if estadoActual = 0 ∨ estadoActual = 9 then false
  else if estadoActual = 1 then avion.Categoria == "A"
  else if estadoActual = 2 then avion.Categoria == "B"
  else if estadoActual = 3 then avion.Categoria == "C"
  else if estadoActual = 4 then avion.Categoria == "A"
  else if estadoActual = 5 then avion.Categoria == "B"
  else if estadoActual = 6 then avion.Categoria == "C"
  else if estadoActual = 7 ∨ estadoActual = 8 then true
  else true

/-- The function `determinarCategoria`. -/
def determinarCategoria (numPasajeros : Int) : String :=
  if numPasajeros > 100 then "A"
  else if numPasajeros >= 50 then "B"
  else "C"

/-! ## The admission table as the specification words it (section 4.2) -/

/-- The three categories of the specification. -/
inductive Categoria where
  | A
  | B
  | C
  deriving DecidableEq, Repr

/-- The string that names a category in the program. -/
def Categoria.nombre : Categoria → String
  | Categoria.A => "A"
  | Categoria.B => "B"
  | Categoria.C => "C"

/-- The table of section 4.2, row by row, for the status codes 0 to 9. -/
def tablaAdmision (c : Categoria) (status : Int) : Bool :=
  if status = 0 ∨ status = 9 then false
  else if status = 1 ∨ status = 4 then decide (c = Categoria.A)
  else if status = 2 ∨ status = 5 then decide (c = Categoria.B)
  else if status = 3 ∨ status = 6 then decide (c = Categoria.C)
  else true

/-! ## Go library functions used by the status feed

`strings.TrimSpace`, `strings.HasPrefix` and `strconv.Atoi` belong to the Go
standard library; they are modelled on strings of Unicode characters, after
the library documentation. -/

/-- Go `unicode.IsSpace`: the white space characters of Unicode. -/
def unicodeIsSpace (c : Char) : Bool :=
  let n := c.toNat
  (9 ≤ n && n ≤ 13) || n == 32 || n == 0x85 || n == 0xA0 || n == 0x1680 ||
  (0x2000 ≤ n && n ≤ 0x200a) || n == 0x2028 || n == 0x2029 || n == 0x202f ||
  n == 0x205f || n == 0x3000

/-- Go `strings.TrimSpace`: drops the leading and the trailing white space. -/
def stringsTrimSpace (s : String) : String :=
  String.mk ((s.data.dropWhile unicodeIsSpace).reverse.dropWhile unicodeIsSpace).reverse

/-- Go `strings.HasPrefix`. -/
def stringsHasPrefix (s pre : String) : Bool :=
  pre.data.isPrefixOf s.data

/-- The value of a decimal digit, `none` for any other character. -/
def valorDigito (c : Char) : Option Nat :=
  if 48 ≤ c.toNat ∧ c.toNat ≤ 57 then some (c.toNat - 48) else none

/-- The loop of `strconv.Atoi` over the digits, with accumulator `n`. -/
def leerDigitos : List Char → Nat → Option Nat
  | [], n => some n
  | c :: cs, n =>
    match valorDigito c with
    | none => none
    | some d => leerDigitos cs (n * 10 + d)

/-- Go `strconv.Atoi` for a 64-bit `int`: an optional sign, then at least one
decimal digit, the value within the range of `int`; `none` stands for a
non-nil error. -/
def strconvAtoi (s : String) : Option Int :=
  match s.data with
  | [] => none
  | c :: cs =>
    let neg : Bool := c.toNat == 45
    let ds : List Char := if c.toNat == 45 || c.toNat == 43 then cs else c :: cs
    match ds with
    | [] => none
    | _ :: _ =>
      match leerDigitos ds 0 with
      | none => none
      | some n =>
        let v : Int := if neg then -(n : Int) else (n : Int)
        if -(2 : Int) ^ 63 ≤ v ∧ v ≤ (2 : Int) ^ 63 - 1 then some v else none

/-! ## Shared state (main.go, lines 42-54) -/

/-- The package variables that the goroutines share. `torre.cola`, never
used by the program, is left out; `canal` is the buffer of `avionesChannel`,
whose capacity is `maxEspera`. -/
structure Global where
  avionesProcesando : Int
  capacidad : Int
  pistas : List Pista
  estadoValor : Int
  estadoInicial : Bool
  canal : List Avion
  deriving DecidableEq, Repr

/-- The function `procesarMensajeServidor` (lines 261-286). -/
def procesarMensajeServidor (mensaje : String) (g : Global) : Global :=
  let mensaje := stringsTrimSpace mensaje
  if mensaje = "" then g
  else
    match strconvAtoi mensaje with
    | none => g
    | some nuevoEstado =>
      let estadoAnterior := g.estadoValor
      let g1 := { g with estadoValor := nuevoEstado }
      if estadoAnterior ≠ nuevoEstado ∨ g.estadoInicial = true then
        { g1 with estadoInicial := false }
      else g1

/-! ## Runway scan (main.go, lines 104-114) -/

/-- The loop `for i := range pistas` from index `i` on; the first argument
bounds the number of iterations left. Returns `pistaAsignada` and the pool. -/
def escanearPistas : Nat → Nat → List Pista → Int × List Pista
  | 0, _, pistas => (-1, pistas)
  | quedan + 1, i, pistas =>
    match pistas[i]? with
    | none => (-1, pistas)
    | some p =>
      if !p.ocupada then ((i : Int), pistas.set i { p with ocupada := true })
      else escanearPistas quedan (i + 1) pistas

/-- Lines 104-114 run without interference: `pistaAsignada` and the pool. -/
def asignarPista (pistas : List Pista) : Int × List Pista :=
  escanearPistas pistas.length 0 pistas

/-! ## One invocation of `procesarAvion` as a goroutine -/

/-- The way an invocation of `procesarAvion` leaves the function: the return
of line 76, the return of line 99, and the end of the body after a landing or
after the requeue of line 130. -/
inductive Camino where
  | congestion
  | denegado
  | completado
  | sinPista
  deriving DecidableEq, Repr

/-- Control points of `procesarAvion`, one per critical section or channel
operation. -/
inductive PC where
  | entrar
  | reencolarCongestion
  | leerEstado
  | salirDenegado
  | reencolarDenegado
  | buscarPista (i : Nat)
  | liberarPista (i : Nat)
  | reencolarSinPista
  | salirFinal (c : Camino)
  | terminado (c : Camino)
  deriving DecidableEq, Repr

/-- An invocation of `procesarAvion`. The fields `incrementos` and
`decrementos` are history variables: they count the executions of
`torre.avionesProcesando++` and `torre.avionesProcesando--` by this
invocation and are never read by the program. -/
structure Hilo where
  avion : Avion
  pc : PC
  incrementos : Nat
  decrementos : Nat
  deriving DecidableEq, Repr

/-- A fresh invocation `procesarAvion(a)`. -/
def nuevoHilo (a : Avion) : Hilo :=
  { avion := a, pc := PC.entrar, incrementos := 0, decrementos := 0 }

/-- The statement `select { case avionesChannel <- avion: default: }`. -/
def enviarSinBloqueo (canal : List Avion) (a : Avion) : List Avion :=
  if (canal.length : Int) < maxEspera then canal ++ [a] else canal

/-- The next atomic step of an invocation; `none` when it has returned, when
it is blocked on the send of line 130, or on an index out of range. -/
def pasoAvion (g : Global) (h : Hilo) : Option (Global × Hilo) :=
  match h.pc with
  | PC.entrar =>
    if g.avionesProcesando >= maxEspera then
      some (g, { h with pc := PC.reencolarCongestion })
    else
      some ({ g with avionesProcesando := g.avionesProcesando + 1 },
            { h with pc := PC.leerEstado, incrementos := h.incrementos + 1 })
  | PC.reencolarCongestion =>
    some ({ g with canal := enviarSinBloqueo g.canal h.avion },
          { h with pc := PC.terminado Camino.congestion })
  | PC.leerEstado =>
    let estadoActual := g.estadoValor
    if !puedeAterrizar h.avion estadoActual then
      some (g, { h with pc := PC.salirDenegado })
    else
      some (g, { h with pc := PC.buscarPista 0 })
  | PC.salirDenegado =>
    some ({ g with avionesProcesando := g.avionesProcesando - 1 },
          { h with pc := PC.reencolarDenegado, decrementos := h.decrementos + 1 })
  | PC.reencolarDenegado =>
    some ({ g with canal := enviarSinBloqueo g.canal h.avion },
          { h with pc := PC.terminado Camino.denegado })
  | PC.buscarPista i =>
    match g.pistas[i]? with
    | none => some (g, { h with pc := PC.reencolarSinPista })
    | some p =>
      if !p.ocupada then
        some ({ g with pistas := g.pistas.set i { p with ocupada := true } },
              { h with pc := PC.liberarPista i })
      else
        some (g, { h with pc := PC.buscarPista (i + 1) })
  | PC.liberarPista i =>
    match g.pistas[i]? with
    | none => none
    | some p =>
      some ({ g with pistas := g.pistas.set i { p with ocupada := false } },
            { h with pc := PC.salirFinal Camino.completado })
  | PC.reencolarSinPista =>
    if (g.canal.length : Int) < maxEspera then
      some ({ g with canal := g.canal ++ [h.avion] },
            { h with pc := PC.salirFinal Camino.sinPista })
    else none
  | PC.salirFinal c =>
    some ({ g with avionesProcesando := g.avionesProcesando - 1 },
          { h with pc := PC.terminado c, decrementos := h.decrementos + 1 })
  | PC.terminado _ => none

/-! ## The program started by `Run` -/

/-- The shared state and the invocations of `procesarAvion` started so far. -/
structure Sistema where
  g : Global
  hilos : List Hilo
  deriving DecidableEq, Repr

/-- What can happen next: `lanzar` is any caller starting `procesarAvion(a)`,
`despachar` one iteration of `gestionarAviones`, `generar` the blocking send
of `generarAvionesTest`, `mensaje` one line read by the loop of `Run`,
`avanzar i` the next atomic step of the invocation number `i`. -/
inductive Evento where
  | lanzar (a : Avion)
  | despachar
  | generar (a : Avion)
  | mensaje (m : String)
  | avanzar (i : Nat)
  deriving DecidableEq, Repr

/-- The pool built by `Run` (lines 186-189). -/
def pistasIniciales : List Pista :=
  (List.range numPistas).map fun (i : Nat) => { ID := (i : Int), ocupada := false }

/-- The state that `Run` sets up before it starts the goroutines. -/
def sistemaInicial : Sistema :=
  { g := { avionesProcesando := 0, capacidad := maxEspera, pistas := pistasIniciales,
           estadoValor := 0, estadoInicial := true, canal := [] },
    hilos := [] }

/-- One transition of the program; `none` when the event is not enabled. -/
def paso (e : Evento) (s : Sistema) : Option Sistema :=
  match e with
  | Evento.lanzar a => some { s with hilos := s.hilos ++ [nuevoHilo a] }
  | Evento.despachar =>
    match s.g.canal with
    | [] => none
    | a :: resto =>
      some { g := { s.g with canal := resto }, hilos := s.hilos ++ [nuevoHilo a] }
  | Evento.generar a =>
    if (s.g.canal.length : Int) < maxEspera then
      some { s with g := { s.g with canal := s.g.canal ++ [a] } }
    else none
  | Evento.mensaje m =>
    some { s with g := procesarMensajeServidor (stringsTrimSpace m) s.g }
  | Evento.avanzar i =>
    match s.hilos[i]? with
    | none => none
    | some h =>
      match pasoAvion s.g h with
      | none => none
      | some (g1, h1) => some { g := g1, hilos := s.hilos.set i h1 }

/-- Runs a schedule, event by event. -/
def ejecutar : List Evento → Sistema → Option Sistema
  | [], s => some s
  | e :: es, s =>
    match paso e s with
    | none => none
    | some s1 => ejecutar es s1

/-- The states the program can be in: those some schedule leads to. -/
def Alcanzable (s : Sistema) : Prop :=
  ∃ es : List Evento, ejecutar es sistemaInicial = some s

/-! ## The harness `ejecutarPrueba` (aeropuerto_test.go, lines 38-190) -/

/-- The constant `maxReintentos`. -/
def maxReintentos : Int := 5

/-- The struct `EstadoAvion`. -/
structure EstadoAvion where
  avion : Avion
  intentos : Int
  procesado : Bool
  deriving DecidableEq, Repr

/-- The struct `ResultadoPrueba`, without its two durations. -/
structure ResultadoPrueba where
  avionesExito : Int
  avionesFallo : Int
  deriving DecidableEq, Repr

/-- The lookup `avionesMap[k]` in a map kept as a list of entries. -/
def buscarMapa : List (Int × EstadoAvion) → Int → Option EstadoAvion
  | [], _ => none
  | (k1, v1) :: resto, k => if k1 = k then some v1 else buscarMapa resto k

/-- The assignment `avionesMap[k] = v`: replaces the entry of `k`, or adds one. -/
def asignarMapa : List (Int × EstadoAvion) → Int → EstadoAvion → List (Int × EstadoAvion)
  | [], k, v => [(k, v)]
  | (k1, v1) :: resto, k, v =>
    if k1 = k then (k, v) :: resto else (k1, v1) :: asignarMapa resto k v

/-- A write through the pointer stored under the key `k`. -/
def modificarMapa (f : EstadoAvion → EstadoAvion) :
    List (Int × EstadoAvion) → Int → List (Int × EstadoAvion)
  | [], _ => []
  | (k1, v1) :: resto, k =>
    if k1 = k then (k1, f v1) :: resto else (k1, v1) :: modificarMapa f resto k

/-- The three loops of lines 121-135. -/
def construirMapa (numA numB numC : Int) : List (Int × EstadoAvion) :=
  let m1 := (List.range numA.toNat).foldl
    (fun m (i : Nat) => asignarMapa m (i : Int)
      { avion := { ID := (i : Int), Categoria := "A", NumPasajeros := 101 + (i : Int) },
        intentos := 0, procesado := false }) []
  let m2 := (List.range numB.toNat).foldl
    (fun m (i : Nat) => asignarMapa m (numA + (i : Int))
      { avion := { ID := numA + (i : Int), Categoria := "B", NumPasajeros := 50 + (i : Int) },
        intentos := 0, procesado := false }) m1
  (List.range numC.toNat).foldl
    (fun m (i : Nat) => asignarMapa m (numA + numB + (i : Int))
      { avion := { ID := numA + numB + (i : Int), Categoria := "C",
                   NumPasajeros := 30 + (i : Int) },
        intentos := 0, procesado := false }) m2

/-- The loop of lines 169-175, with the two counters as accumulators. -/
def contarResultados : List (Int × EstadoAvion) → Int → Int → ResultadoPrueba
  | [], exito, fallo => { avionesExito := exito, avionesFallo := fallo }
  | (_, v) :: resto, exito, fallo =>
    if v.procesado then contarResultados resto (exito + 1) fallo
    else contarResultados resto exito (fallo + 1)

/-- Control points of the goroutine of lines 83-114. -/
inductive PCTrabajador where
  | registrar
  | verificar
  | esperando
  | descartado
  | hecho
  | vencido
  deriving DecidableEq, Repr

/-- One goroutine of lines 83-114 for the plane `avion`, and the invocation
of `procesarAvion` it has started at line 102, if any. -/
structure Trabajador where
  avion : Avion
  pc : PCTrabajador
  hilo : Option Hilo
  deriving DecidableEq, Repr

/-- The state of a run of `ejecutarPrueba`: `porEnviar` holds the planes the
loop of line 138 has not sent yet. -/
structure Prueba where
  g : Global
  mapa : List (Int × EstadoAvion)
  porEnviar : List Avion
  trabajadores : List Trabajador
  deriving DecidableEq, Repr

/-- What can happen next in a run of `ejecutarPrueba`: `enviar k` is line 139
for the entry number `k` among those left (a map is iterated in any order),
`recibir` one iteration of line 81, `trabajador i` the next step of the
goroutine number `i`, `vencer i` the timeout of its `select`, `hilo i` the
next atomic step of its invocation of `procesarAvion`, `mensaje m` one line
read by the goroutine of lines 60-75. -/
inductive EventoPrueba where
  | enviar (k : Nat)
  | recibir
  | trabajador (i : Nat)
  | vencer (i : Nat)
  | hilo (i : Nat)
  | mensaje (m : String)
  deriving DecidableEq, Repr

/-- The state after line 136; the pool, `torre.capacidad` and `estadoInicial`
are not reset by the harness and keep the values they had. -/
def pruebaInicial (pistas0 : List Pista) (capacidad0 : Int) (inicial0 : Bool)
    (numA numB numC : Int) : Prueba :=
  { g := { avionesProcesando := 0, capacidad := capacidad0, pistas := pistas0,
           estadoValor := 0, estadoInicial := inicial0, canal := [] },
    mapa := construirMapa numA numB numC,
    porEnviar := (construirMapa numA numB numC).map fun kv => kv.2.avion,
    trabajadores := [] }

/-- The next step of a goroutine of lines 83-114. -/
def pasoTrabajador (mapa : List (Int × EstadoAvion)) (w : Trabajador) :
    Option (List (Int × EstadoAvion) × Trabajador) :=
  match w.pc with
  | PCTrabajador.registrar =>
    let mapa1 :=
      match buscarMapa mapa w.avion.ID with
      | some _ => mapa
      | none => asignarMapa mapa w.avion.ID
          { avion := w.avion, intentos := 0, procesado := false }
    some (modificarMapa (fun ea => { ea with intentos := ea.intentos + 1 }) mapa1 w.avion.ID,
          { w with pc := PCTrabajador.verificar })
  | PCTrabajador.verificar =>
    match buscarMapa mapa w.avion.ID with
    | none => none
    | some ea =>
      if ea.intentos > maxReintentos then
        some (mapa, { w with pc := PCTrabajador.descartado })
      else
        some (mapa, { w with pc := PCTrabajador.esperando, hilo := some (nuevoHilo w.avion) })
  | PCTrabajador.esperando =>
    match w.hilo with
    | none => none
    | some h =>
      match h.pc with
      | PC.terminado _ =>
        some (modificarMapa (fun ea => { ea with procesado := true }) mapa w.avion.ID,
              { w with pc := PCTrabajador.hecho })
      | _ => none
  | _ => none

/-- One transition of a run of `ejecutarPrueba`. -/
def pasoPrueba (e : EventoPrueba) (p : Prueba) : Option Prueba :=
  match e with
  | EventoPrueba.enviar k =>
    match p.porEnviar[k]? with
    | none => none
    | some a =>
      if (p.g.canal.length : Int) < maxEspera then
        some { p with g := { p.g with canal := p.g.canal ++ [a] },
                      porEnviar := p.porEnviar.eraseIdx k }
      else none
  | EventoPrueba.recibir =>
    match p.g.canal with
    | [] => none
    | a :: resto =>
      some { p with g := { p.g with canal := resto },
                    trabajadores := p.trabajadores ++
                      [{ avion := a, pc := PCTrabajador.registrar, hilo := none }] }
  | EventoPrueba.trabajador i =>
    match p.trabajadores[i]? with
    | none => none
    | some w =>
      match pasoTrabajador p.mapa w with
      | none => none
      | some (mapa1, w1) => some { p with mapa := mapa1, trabajadores := p.trabajadores.set i w1 }
  | EventoPrueba.vencer i =>
    match p.trabajadores[i]? with
    | none => none
    | some w =>
      if w.pc = PCTrabajador.esperando then
        some { p with trabajadores := p.trabajadores.set i { w with pc := PCTrabajador.vencido } }
      else none
  | EventoPrueba.hilo i =>
    match p.trabajadores[i]? with
    | none => none
    | some w =>
      match w.hilo with
      | none => none
      | some h =>
        match pasoAvion p.g h with
        | none => none
        | some (g1, h1) =>
          some { p with g := g1, trabajadores := p.trabajadores.set i { w with hilo := some h1 } }
  | EventoPrueba.mensaje m =>
    let mensaje := stringsTrimSpace m
    if mensaje ≠ "" ∧ stringsHasPrefix mensaje "Aeropuerto localizado" = false then
      some { p with g := procesarMensajeServidor mensaje p.g }
    else some p

/-- Runs a schedule of the harness, event by event. -/
def ejecutarPruebaCon : List EventoPrueba → Prueba → Option Prueba
  | [], p => some p
  | e :: es, p =>
    match pasoPrueba e p with
    | none => none
    | some p1 => ejecutarPruebaCon es p1

/-- The value `ejecutarPrueba` returns when it computes the final accounting
(lines 164-189) in the state `p`. -/
def resultadoPrueba (p : Prueba) : ResultadoPrueba :=
  contarResultados p.mapa 0 0

/-- The number of invocations of `procesarAvion` started for the plane `x`. -/
def invocaciones (p : Prueba) (x : Int) : Nat :=
  (p.trabajadores.map fun w => if w.avion.ID = x ∧ w.hilo.isSome then 1 else 0).sum

/-! ## Quantities used to state the invariants -/

/-- The gate slots an invocation holds: its increments minus its decrements. -/
def dentro (h : Hilo) : Int :=
  (h.incrementos : Int) - (h.decrementos : Int)

/-- The counters an invocation must show at each control point. -/
def contadoresEn (h : Hilo) : Prop :=
  match h.pc with
  | PC.entrar => h.incrementos = 0 ∧ h.decrementos = 0
  | PC.reencolarCongestion => h.incrementos = 0 ∧ h.decrementos = 0
  | PC.leerEstado => h.incrementos = 1 ∧ h.decrementos = 0
  | PC.salirDenegado => h.incrementos = 1 ∧ h.decrementos = 0
  | PC.reencolarDenegado => h.incrementos = 1 ∧ h.decrementos = 1
  | PC.buscarPista _ => h.incrementos = 1 ∧ h.decrementos = 0
  | PC.liberarPista _ => h.incrementos = 1 ∧ h.decrementos = 0
  | PC.reencolarSinPista => h.incrementos = 1 ∧ h.decrementos = 0
  | PC.salirFinal c => h.incrementos = 1 ∧ h.decrementos = 0 ∧ c ≠ Camino.congestion
  | PC.terminado c =>
    if c = Camino.congestion then h.incrementos = 0 ∧ h.decrementos = 0
    else h.incrementos = 1 ∧ h.decrementos = 1

/-- The invariant of the tower gate. -/
def InvTorre (s : Sistema) : Prop :=
  (∀ h ∈ s.hilos, contadoresEn h) ∧
  s.g.avionesProcesando = (s.hilos.map dentro).sum ∧
  s.g.avionesProcesando ≤ maxEspera ∧
  s.g.capacidad = maxEspera

/-- 1 when the invocation holds the runway `j` (it is between the claim of
line 108 and the release of line 121), 0 otherwise. -/
def titular (j : Nat) (h : Hilo) : Nat :=
  if h.pc = PC.liberarPista j then 1 else 0

/-- 1 when the runway `j` exists and is marked occupied, 0 otherwise. -/
def marcaOcupada (pistas : List Pista) (j : Nat) : Nat :=
  match pistas[j]? with
  | some p => if p.ocupada then 1 else 0
  | none => 0

/-- The invariant of the runway pool: the holders of each runway are as many
as its flag says. -/
def InvPistas (s : Sistema) : Prop :=
  ∀ j, (s.hilos.map (titular j)).sum = marcaOcupada s.g.pistas j

/-- The scan of an invocation run alone: its atomic steps are taken one after
the other, at most `n` of them, for as long as it is in the loop of line 105. -/
def escanearHilo : Nat → Global → Hilo → Global × Hilo
  | 0, g, h => (g, h)
  | n + 1, g, h =>
    match h.pc with
    | PC.buscarPista _ =>
      match pasoAvion g h with
      | some (g1, h1) => escanearHilo n g1 h1
      | none => (g, h)
    | _ => (g, h)

/-! ## A concrete schedule of the running program -/

/-- Six planes: one of category A, two of category B, three of category C. -/
def avionEjemplo (i : Nat) : Avion :=
  { ID := (i : Int), Categoria := determinarCategoria (120 - 30 * (i : Int)),
    NumPasajeros := 120 - 30 * (i : Int) }

/-- A schedule: the feed announces status 7, six invocations start and five
of them enter the gate. -/
def trazaTorreLlena : List Evento :=
  [Evento.mensaje "7\n"] ++ (List.range 6).map (fun i => Evento.lanzar (avionEjemplo i)) ++
  (List.range 5).map Evento.avanzar

/-- The schedule goes on: the sixth invocation finds the gate full and
requeues, three invocations claim the three runways, the fourth finds none
and requeues, the feed closes the airport (status 0) and the fifth is denied. -/
def trazaPistasTomadas : List Evento :=
  trazaTorreLlena ++
  [Evento.avanzar 5, Evento.avanzar 5,
   Evento.avanzar 0, Evento.avanzar 0,
   Evento.avanzar 1, Evento.avanzar 1, Evento.avanzar 1,
   Evento.avanzar 2, Evento.avanzar 2, Evento.avanzar 2, Evento.avanzar 2,
   Evento.avanzar 3, Evento.avanzar 3, Evento.avanzar 3, Evento.avanzar 3, Evento.avanzar 3,
   Evento.avanzar 3, Evento.avanzar 3,
   Evento.mensaje " 0 ",
   Evento.avanzar 4, Evento.avanzar 4, Evento.avanzar 4]

/-- The schedule ends: the three landings release their runways and leave. -/
def trazaTodosTerminados : List Evento :=
  trazaPistasTomadas ++
  [Evento.avanzar 0, Evento.avanzar 0, Evento.avanzar 1, Evento.avanzar 1,
   Evento.avanzar 2, Evento.avanzar 2]

/-- The state a schedule leads to from the one `Run` sets up. -/
def estadoTras (es : List Evento) : Sistema :=
  (ejecutar es sistemaInicial).getD sistemaInicial

/-! ## Quantities used to state the invariants of the harness -/

/-- The keys of the map, in the order of the list that represents it. -/
def claves (mapa : List (Int × EstadoAvion)) : List Int :=
  mapa.map fun kv => kv.1

/-- The field `intentos` stored for the plane `x`, 0 when it has no entry. -/
def intentosDe (mapa : List (Int × EstadoAvion)) (x : Int) : Int :=
  match buscarMapa mapa x with
  | some ea => ea.intentos
  | none => 0

/-- The field `procesado` stored for the plane `x`. -/
def procesadoDe (mapa : List (Int × EstadoAvion)) (x : Int) : Bool :=
  match buscarMapa mapa x with
  | some ea => ea.procesado
  | none => false

/-- 1 for the plane `x`, 0 for any other. -/
def pesoAvion (x : Int) (a : Avion) : Nat :=
  if a.ID = x then 1 else 0

/-- An invocation still carries its plane while it may requeue it: until it
reaches the final decrement or returns. -/
def tieneFicha (h : Hilo) : Bool :=
  match h.pc with
  | PC.salirFinal _ => false
  | PC.terminado _ => false
  | _ => true

/-- 1 when the goroutine is for the plane `x` and has called `procesarAvion`. -/
def pesoInvocado (x : Int) (w : Trabajador) : Nat :=
  if w.avion.ID = x ∧ w.hilo.isSome then 1 else 0

/-- 1 when the goroutine is for the plane `x` and is about to read `intentos`. -/
def pesoPendiente (x : Int) (w : Trabajador) : Nat :=
  if w.avion.ID = x ∧ w.pc = PCTrabajador.verificar then 1 else 0

/-- 1 when the goroutine is for the plane `x` and has dropped it (line 97). -/
def pesoDescartado (x : Int) (w : Trabajador) : Nat :=
  if w.avion.ID = x ∧ w.pc = PCTrabajador.descartado then 1 else 0

/-- 1 when the goroutine is for the plane `x` and has received `done`. -/
def pesoHecho (x : Int) (w : Trabajador) : Nat :=
  if w.avion.ID = x ∧ w.pc = PCTrabajador.hecho then 1 else 0

/-- 1 when the goroutine is for the plane `x` and the plane is still in its
hands: before the call, or inside an invocation that carries it. -/
def pesoFicha (x : Int) (w : Trabajador) : Nat :=
  if w.avion.ID = x ∧
      (w.pc = PCTrabajador.registrar ∨ w.pc = PCTrabajador.verificar ∨
        w.hilo.map tieneFicha = some true) then 1 else 0

/-- The number of places the plane `x` is in: not yet sent, in the channel,
or in the hands of a goroutine. -/
def fichas (p : Prueba) (x : Int) : Nat :=
  (p.porEnviar.map (pesoAvion x)).sum + (p.g.canal.map (pesoAvion x)).sum +
    (p.trabajadores.map (pesoFicha x)).sum

/-- The number of goroutines for the plane `x` that dropped it at line 97. -/
def descartes (p : Prueba) (x : Int) : Nat :=
  (p.trabajadores.map (pesoDescartado x)).sum

/-- The number of goroutines for the plane `x` that have received `done`. -/
def hechos (p : Prueba) (x : Int) : Nat :=
  (p.trabajadores.map (pesoHecho x)).sum

/-- What the control point of a goroutine says about its invocation. -/
def estructuraOk (w : Trabajador) : Prop :=
  match w.pc with
  | PCTrabajador.registrar => w.hilo = none
  | PCTrabajador.verificar => w.hilo = none
  | PCTrabajador.descartado => w.hilo = none
  | PCTrabajador.esperando => ∃ h, w.hilo = some h ∧ h.avion = w.avion
  | PCTrabajador.vencido => ∃ h, w.hilo = some h ∧ h.avion = w.avion
  | PCTrabajador.hecho => ∃ h c, w.hilo = some h ∧ h.avion = w.avion ∧ h.pc = PC.terminado c

/-- The planes of a run all have an entry in the map, whose keys are `K`. -/
def InvBase (K : List Int) (p : Prueba) : Prop :=
  claves p.mapa = K ∧
  (∀ a ∈ p.porEnviar, a.ID ∈ K) ∧
  (∀ a ∈ p.g.canal, a.ID ∈ K) ∧
  (∀ w ∈ p.trabajadores, w.avion.ID ∈ K ∧ estructuraOk w)

/-- The accounting of attempts, plane by plane. -/
def InvCuenta (p : Prueba) : Prop :=
  ∀ x : Int,
    intentosDe p.mapa x
      = ((invocaciones p x + (p.trabajadores.map (pesoPendiente x)).sum + descartes p x : Nat) : Int) ∧
    fichas p x ≤ 1 ∧
    (1 ≤ descartes p x → fichas p x = 0 ∧ invocaciones p x = 5 ∧ descartes p x = 1) ∧
    invocaciones p x ≤ 5 ∧
    (procesadoDe p.mapa x = true ↔ 0 < hechos p x)

/-! ## A concrete run of the harness -/

/-- One attempt of the goroutine number `k` that ends with the denial of line
87: dequeue, registration, call, the four steps of `procesarAvion` on the
denial path, and the reception of `done`. -/
def intentoDenegado (k : Nat) : List EventoPrueba :=
  [EventoPrueba.recibir, EventoPrueba.trabajador k, EventoPrueba.trabajador k,
   EventoPrueba.hilo k, EventoPrueba.hilo k, EventoPrueba.hilo k, EventoPrueba.hilo k,
   EventoPrueba.trabajador k]

/-- The run of `ejecutarPrueba(1, 0, 0)` with the status 0 throughout: the
plane is sent, denied five times, and dropped at the sixth dequeue. -/
def trazaSiempreDenegado : List EventoPrueba :=
  [EventoPrueba.enviar 0] ++ intentoDenegado 0 ++ intentoDenegado 1 ++ intentoDenegado 2 ++
  intentoDenegado 3 ++ intentoDenegado 4 ++
  [EventoPrueba.recibir, EventoPrueba.trabajador 5, EventoPrueba.trabajador 5]

/-- One attempt of the goroutine number `k` that finds no runway: dequeue,
registration, call, the five steps of `procesarAvion` through the requeue of
line 130, and the reception of `done`. -/
def intentoSinPista (k : Nat) : List EventoPrueba :=
  [EventoPrueba.recibir, EventoPrueba.trabajador k, EventoPrueba.trabajador k,
   EventoPrueba.hilo k, EventoPrueba.hilo k, EventoPrueba.hilo k, EventoPrueba.hilo k,
   EventoPrueba.hilo k, EventoPrueba.trabajador k]

/-- The run of `ejecutarPrueba(1, 0, 0)` with the status 8 announced by the
feed and an empty pool: the plane is sent, requeued five times for lack of a
runway, and dropped at the sixth dequeue. -/
def trazaSinPista : List EventoPrueba :=
  [EventoPrueba.mensaje "8\n", EventoPrueba.enviar 0] ++ intentoSinPista 0 ++
  intentoSinPista 1 ++ intentoSinPista 2 ++ intentoSinPista 3 ++ intentoSinPista 4 ++
  [EventoPrueba.recibir, EventoPrueba.trabajador 5, EventoPrueba.trabajador 5]

/-- The state a schedule of the harness leads to in a process where `Run` has
not been called (no runway, capacity 0) for the batch `numA`, `numB`, `numC`. -/
def pruebaTras (numA numB numC : Int) (es : List EventoPrueba) : Prueba :=
  (ejecutarPruebaCon es (pruebaInicial [] 0 true numA numB numC)).getD
    (pruebaInicial [] 0 true numA numB numC)

/-! # Theorems -/

/-! ## Admission policy and category thresholds -/

/-- C1: for a plane of category A, B or C, `puedeAterrizar` returns the value
of the admission table for every status from 0 to 9, and `true` for every
status outside that range. -/
theorem puedeAterrizar_tabla (avion : Avion) (c : Categoria) (e : Int)
    (hc : avion.Categoria = c.nombre) :
    (0 ≤ e ∧ e ≤ 9 → puedeAterrizar avion e = tablaAdmision c e) ∧
    (e < 0 ∨ 9 < e → puedeAterrizar avion e = true) := by
  constructor
  · rintro ⟨h0, h9⟩
    interval_cases e <;> cases c <;>
      simp [puedeAterrizar, tablaAdmision, hc, Categoria.nombre]
  · intro h
    have h0 : e ≠ 0 := by omega
    have h1 : e ≠ 1 := by omega
    have h2 : e ≠ 2 := by omega
    have h3 : e ≠ 3 := by omega
    have h4 : e ≠ 4 := by omega
    have h5 : e ≠ 5 := by omega
    have h6 : e ≠ 6 := by omega
    have h9 : e ≠ 9 := by omega
    simp [puedeAterrizar, h0, h1, h2, h3, h4, h5, h6, h9]

/-- The table at status 1 for a plane of category B, and the default at 10. -/
theorem puedeAterrizar_tabla_witness :
    (puedeAterrizar { ID := 7, Categoria := "B", NumPasajeros := 60 } 1
        = tablaAdmision Categoria.B 1) ∧
    puedeAterrizar { ID := 7, Categoria := "B", NumPasajeros := 60 } 10 = true :=
  ⟨(puedeAterrizar_tabla { ID := 7, Categoria := "B", NumPasajeros := 60 } Categoria.B 1
      rfl).1 (by decide),
   (puedeAterrizar_tabla { ID := 7, Categoria := "B", NumPasajeros := 60 } Categoria.B 10
      rfl).2 (by decide)⟩

/-- C2: `determinarCategoria` returns "A" exactly above 100, "B" exactly from
50 to 100, "C" exactly below 50, and nothing else. -/
theorem determinarCategoria_umbrales (numPasajeros : Int) :
    (determinarCategoria numPasajeros = "A" ↔ numPasajeros > 100) ∧
    (determinarCategoria numPasajeros = "B" ↔ 50 ≤ numPasajeros ∧ numPasajeros ≤ 100) ∧
    (determinarCategoria numPasajeros = "C" ↔ numPasajeros < 50) ∧
    (determinarCategoria numPasajeros = "A" ∨ determinarCategoria numPasajeros = "B" ∨
      determinarCategoria numPasajeros = "C") := by
  unfold determinarCategoria
  by_cases h1 : numPasajeros > 100
  · simp [h1]; omega
  · by_cases h2 : numPasajeros >= 50
    · simp [h1, h2]; omega
    · simp [h1, h2]; omega

/-! ## Runway scan -/

/-- The scan from index `i` finds nothing when every runway from `i` on is
occupied. -/
theorem escanearPistas_ocupadas (pistas : List Pista) :
    ∀ (quedan i : Nat),
      (∀ j p, i ≤ j → pistas[j]? = some p → p.ocupada = true) →
      escanearPistas quedan i pistas = (-1, pistas) := by
  intro quedan
  induction quedan with
  | zero => intro i _; rfl
  | succ q ih =>
    intro i hocc
    unfold escanearPistas
    cases hp : pistas[i]? with
    | none => rfl
    | some p =>
      have hpo : p.ocupada = true := hocc i p (Nat.le_refl i) hp
      simp only [hpo, Bool.not_true, Bool.false_eq_true, if_false]
      exact ih (i + 1) (fun j r hj hr => hocc j r (by omega) hr)

/-- The scan from index `i` claims the runway `k` when `k` is the first free
one from `i` on and enough iterations are left. -/
theorem escanearPistas_libre (pistas : List Pista) (k : Nat) (p : Pista)
    (hk : pistas[k]? = some p) (hfree : p.ocupada = false) :
    ∀ (quedan i : Nat), i ≤ k → k < i + quedan →
      (∀ j r, i ≤ j → j < k → pistas[j]? = some r → r.ocupada = true) →
      escanearPistas quedan i pistas
        = ((k : Int), pistas.set k { p with ocupada := true }) := by
  intro quedan
  induction quedan with
  | zero => intro i h1 h2 _; omega
  | succ q ih =>
    intro i h1 h2 hocc
    unfold escanearPistas
    by_cases hik : i = k
    · subst hik
      simp [hk, hfree]
    · have hlt : i < k := by omega
      have hklen : k < pistas.length := by
        rcases List.getElem?_eq_some.mp hk with ⟨h, _⟩
        exact h
      have hilen : i < pistas.length := by omega
      cases hp : pistas[i]? with
      | none =>
        rw [List.getElem?_eq_none_iff] at hp
        omega
      | some r =>
        have hro : r.ocupada = true := hocc i r (Nat.le_refl i) hlt hp
        simp only [hro, Bool.not_true, Bool.false_eq_true, if_false]
        exact ih (i + 1) (by omega) (by omega) (fun j r2 hj hj2 hr => hocc j r2 (by omega) hj2 hr)

/-- C5: run on any pool, the scan of lines 104-114 assigns the least index
whose runway is free, sets the flag of that runway only, and when every
runway is occupied assigns none (-1) and leaves the pool as it was. -/
theorem asignarPista_primera_libre (pistas : List Pista) :
    (∀ (k : Nat) (p : Pista), pistas[k]? = some p → p.ocupada = false →
      (∀ j r, j < k → pistas[j]? = some r → r.ocupada = true) →
      (asignarPista pistas).1 = (k : Int) ∧
      (asignarPista pistas).2.length = pistas.length ∧
      (asignarPista pistas).2[k]? = some { ID := p.ID, ocupada := true } ∧
      (∀ j, j ≠ k → (asignarPista pistas).2[j]? = pistas[j]?)) ∧
    ((∀ p ∈ pistas, p.ocupada = true) → asignarPista pistas = (-1, pistas)) := by
  constructor
  · intro k p hk hfree hocc
    have hklen : k < pistas.length := by
      rcases List.getElem?_eq_some.mp hk with ⟨h, _⟩
      exact h
    have h := escanearPistas_libre pistas k p hk hfree pistas.length 0 (Nat.zero_le k)
      (by omega) (fun j r _ hj hr => hocc j r hj hr)
    unfold asignarPista
    rw [h]
    refine ⟨rfl, by simp, by simp [hklen], ?_⟩
    intro j hj
    simp [List.getElem?_set, Ne.symm hj]
  · intro hall
    unfold asignarPista
    apply escanearPistas_ocupadas
    intro j p _ hp
    exact hall p (List.getElem?_mem hp)

/-- The pool free-occupied-free-free after an occupied runway 0: the scan
claims runway 1; on a pool with both runways occupied it claims none. -/
theorem asignarPista_primera_libre_witness :
    ((asignarPista [⟨0, true⟩, ⟨1, false⟩, ⟨2, false⟩]).1 = (1 : Int) ∧
      (asignarPista [⟨0, true⟩, ⟨1, false⟩, ⟨2, false⟩]).2.length = 3 ∧
      (asignarPista [⟨0, true⟩, ⟨1, false⟩, ⟨2, false⟩]).2[1]?
        = some { ID := 1, ocupada := true } ∧
      (∀ j, j ≠ 1 → (asignarPista [⟨0, true⟩, ⟨1, false⟩, ⟨2, false⟩]).2[j]?
        = ([⟨0, true⟩, ⟨1, false⟩, ⟨2, false⟩] : List Pista)[j]?)) ∧
    asignarPista [⟨0, true⟩, ⟨1, true⟩] = (-1, [⟨0, true⟩, ⟨1, true⟩]) :=
  ⟨(asignarPista_primera_libre [⟨0, true⟩, ⟨1, false⟩, ⟨2, false⟩]).1 1 ⟨1, false⟩ rfl rfl
      (by
        intro j r hj hr
        have hj0 : j = 0 := by omega
        subst hj0
        simp at hr
        rw [← hr]),
   (asignarPista_primera_libre [⟨0, true⟩, ⟨1, true⟩]).2 (by simp)⟩

/-! ## Status feed -/

/-- A decimal digit is not white space. -/
theorem valorDigito_no_espacio (c : Char) (d : Nat) (h : valorDigito c = some d) :
    unicodeIsSpace c = false := by
  unfold valorDigito at h
  split at h
  · rename_i hc
    simp only [unicodeIsSpace, Bool.or_eq_false_iff, Bool.and_eq_false_iff, beq_eq_false_iff_ne,
      decide_eq_false_iff_not, ne_eq]
    omega
  · cases h

/-- The characters `leerDigitos` accepts are all decimal digits. -/
theorem leerDigitos_no_espacio :
    ∀ (cs : List Char) (n m : Nat), leerDigitos cs n = some m →
      ∀ c ∈ cs, unicodeIsSpace c = false := by
  intro cs
  induction cs with
  | nil => intro n m _ c hc; cases hc
  | cons a as ih =>
    intro n m h c hc
    unfold leerDigitos at h
    cases hd : valorDigito a with
    | none => rw [hd] at h; cases h
    | some d =>
      rw [hd] at h
      rcases List.mem_cons.mp hc with rfl | hc2
      · exact valorDigito_no_espacio _ d hd
      · exact ih _ m h c hc2

/-- Trimming leaves a list alone whose first and last characters are not
white space. -/
theorem dropWhile_sin_espacios (l : List Char) (hne : l ≠ [])
    (hhead : ∀ c, l.head? = some c → unicodeIsSpace c = false)
    (hlast : ∀ c, l.getLast? = some c → unicodeIsSpace c = false) :
    ((l.dropWhile unicodeIsSpace).reverse.dropWhile unicodeIsSpace).reverse = l := by
  have h1 : l.dropWhile unicodeIsSpace = l := by
    cases l with
    | nil => exact absurd rfl hne
    | cons a as =>
      have := hhead a rfl
      simp [List.dropWhile, this]
  rw [h1]
  have h2 : l.reverse.dropWhile unicodeIsSpace = l.reverse := by
    cases hr : l.reverse with
    | nil => rfl
    | cons a as =>
      have hl : l.getLast? = some a := by
        rw [List.getLast?_eq_head?_reverse, hr]; rfl
      have := hlast a hl
      simp [List.dropWhile, this]
  rw [h2, List.reverse_reverse]

/-- A message that `strconv.Atoi` accepts has no white space to trim. -/
theorem stringsTrimSpace_de_entero (m : String) (n : Int) (h : strconvAtoi m = some n) :
    stringsTrimSpace m = m := by
  unfold strconvAtoi at h
  cases hd : m.data with
  | nil => rw [hd] at h; cases h
  | cons c cs =>
    rw [hd] at h
    simp only at h
    have hall : ∀ x ∈ c :: cs, unicodeIsSpace x = false := by
      by_cases hs : (c.toNat == 45 || c.toNat == 43) = true
      · rw [if_pos hs] at h
        cases hcs : cs with
        | nil => rw [hcs] at h; cases h
        | cons d ds =>
          rw [hcs] at h
          simp only at h
          cases hl : leerDigitos (d :: ds) 0 with
          | none => rw [hl] at h; cases h
          | some v =>
            have hdig := leerDigitos_no_espacio (d :: ds) 0 v hl
            intro x hx
            rcases List.mem_cons.mp hx with rfl | hx2
            · simp only [Bool.or_eq_true, beq_iff_eq] at hs
              simp only [unicodeIsSpace, Bool.or_eq_false_iff, Bool.and_eq_false_iff,
                beq_eq_false_iff_ne, decide_eq_false_iff_not, ne_eq]
              omega
            · exact hdig x hx2
      · rw [if_neg hs] at h
        simp only at h
        cases hl : leerDigitos (c :: cs) 0 with
        | none => rw [hl] at h; cases h
        | some v => exact leerDigitos_no_espacio (c :: cs) 0 v hl
    unfold stringsTrimSpace
    rw [hd, dropWhile_sin_espacios (c :: cs) (by simp)]
    · rw [← hd]
    · intro x hx
      exact hall x (by simp at hx; simp [hx])
    · intro x hx
      exact hall x (List.mem_of_getLast?_eq_some hx)

/-- C7: `procesarMensajeServidor` leaves `estado.valor` as it was for a
message that is empty after trimming or that `strconv.Atoi` rejects, sets it
to `n` for a message that parses as the integer `n`, whatever its range, and
a rejected message changes no result of `puedeAterrizar`. -/
theorem procesarMensajeServidor_valor (mensaje : String) (g : Global) :
    (stringsTrimSpace mensaje = "" →
      (procesarMensajeServidor mensaje g).estadoValor = g.estadoValor) ∧
    (strconvAtoi (stringsTrimSpace mensaje) = none →
      (procesarMensajeServidor mensaje g).estadoValor = g.estadoValor ∧
      ∀ avion, puedeAterrizar avion (procesarMensajeServidor mensaje g).estadoValor
        = puedeAterrizar avion g.estadoValor) ∧
    (∀ n : Int, strconvAtoi (stringsTrimSpace mensaje) = some n →
      (procesarMensajeServidor mensaje g).estadoValor = n) ∧
    (∀ n : Int, strconvAtoi mensaje = some n →
      (procesarMensajeServidor mensaje g).estadoValor = n) := by
  have hsome : ∀ n : Int, strconvAtoi (stringsTrimSpace mensaje) = some n →
      (procesarMensajeServidor mensaje g).estadoValor = n := by
    intro n hn
    have hne : stringsTrimSpace mensaje ≠ "" := by
      intro he
      rw [he] at hn
      cases hn
    unfold procesarMensajeServidor
    simp only [hne, if_false, hn]
    split <;> rfl
  refine ⟨?_, ?_, hsome, ?_⟩
  · intro he
    unfold procesarMensajeServidor
    simp [he]
  · intro hn
    have : procesarMensajeServidor mensaje g = g := by
      unfold procesarMensajeServidor
      simp only [hn]
      split <;> rfl
    rw [this]
    exact ⟨rfl, fun _ => rfl⟩
  · intro n hn
    apply hsome
    rw [stringsTrimSpace_de_entero mensaje n hn]
    exact hn

/-- The message "abc" is ignored, " 42 " and "-1" set the register. -/
theorem procesarMensajeServidor_valor_witness :
    ((procesarMensajeServidor "abc" ⟨0, 5, [], 3, false, []⟩).estadoValor = 3 ∧
      ∀ avion, puedeAterrizar avion (procesarMensajeServidor "abc" ⟨0, 5, [], 3, false, []⟩).estadoValor
        = puedeAterrizar avion 3) ∧
    (procesarMensajeServidor "  " ⟨0, 5, [], 3, false, []⟩).estadoValor = 3 ∧
    (procesarMensajeServidor " 42 " ⟨0, 5, [], 3, false, []⟩).estadoValor = 42 ∧
    (procesarMensajeServidor "-1" ⟨0, 5, [], 3, false, []⟩).estadoValor = -1 :=
  ⟨(procesarMensajeServidor_valor "abc" ⟨0, 5, [], 3, false, []⟩).2.1 (by decide),
   (procesarMensajeServidor_valor "  " ⟨0, 5, [], 3, false, []⟩).1 (by decide),
   (procesarMensajeServidor_valor " 42 " ⟨0, 5, [], 3, false, []⟩).2.2.1 42 (by decide),
   (procesarMensajeServidor_valor "-1" ⟨0, 5, [], 3, false, []⟩).2.2.2 (-1) (by decide)⟩

/-! ## Sums over the list of goroutines -/

/-- Replacing the element at one position changes a sum of weights by the
difference of the two weights. -/
theorem suma_map_set {α M : Type} [AddCommMonoid M] (f : α → M) :
    ∀ (l : List α) (i : Nat) (a b : α), l[i]? = some a →
      ((l.set i b).map f).sum + f a = (l.map f).sum + f b := by
  intro l
  induction l with
  | nil => intro i a b h; simp at h
  | cons x xs ih =>
    intro i a b h
    cases i with
    | zero =>
      simp at h
      subst h
      simp [add_comm, add_left_comm]
    | succ n =>
      simp at h
      have := ih n a b h
      simp only [List.set_cons_succ, List.map_cons, List.sum_cons]
      rw [add_assoc, this, add_assoc]

/-- An element weighs no more than the whole list. -/
theorem peso_le_suma {α : Type} (f : α → Nat) :
    ∀ (l : List α) (i : Nat) (a : α), l[i]? = some a → f a ≤ (l.map f).sum := by
  intro l
  induction l with
  | nil => intro i a h; simp at h
  | cons x xs ih =>
    intro i a h
    cases i with
    | zero =>
      simp at h
      subst h
      simp
    | succ n =>
      simp at h
      have := ih n a h
      simp only [List.map_cons, List.sum_cons]
      omega

/-- Two elements at different positions weigh together no more than the list. -/
theorem pesos_le_suma {α : Type} (f : α → Nat) :
    ∀ (l : List α) (i j : Nat) (a b : α), i ≠ j → l[i]? = some a → l[j]? = some b →
      f a + f b ≤ (l.map f).sum := by
  intro l
  induction l with
  | nil => intro i j a b _ h; simp at h
  | cons x xs ih =>
    intro i j a b hij hi hj
    cases i with
    | zero =>
      cases j with
      | zero => exact absurd rfl hij
      | succ m =>
        simp at hi hj
        subst hi
        have := peso_le_suma f xs m b hj
        simp only [List.map_cons, List.sum_cons]
        omega
    | succ n =>
      cases j with
      | zero =>
        simp at hi hj
        subst hj
        have := peso_le_suma f xs n a hi
        simp only [List.map_cons, List.sum_cons]
        omega
      | succ m =>
        simp at hi hj
        have := ih n m a b (by omega) hi hj
        simp only [List.map_cons, List.sum_cons]
        omega

/-! ## Reachability -/

/-- A property that holds initially and that every transition preserves holds
in every reachable state. -/
theorem alcanzable_induccion (P : Sistema → Prop) (h0 : P sistemaInicial)
    (hpaso : ∀ e s s1, P s → paso e s = some s1 → P s1) :
    ∀ s, Alcanzable s → P s := by
  have key : ∀ (es : List Evento) (s s1 : Sistema), P s → ejecutar es s = some s1 → P s1 := by
    intro es
    induction es with
    | nil =>
      intro s s1 hs h
      simp [ejecutar] at h
      exact h ▸ hs
    | cons e es ih =>
      intro s s1 hs h
      unfold ejecutar at h
      cases hp : paso e s with
      | none => rw [hp] at h; cases h
      | some s2 =>
        rw [hp] at h
        exact ih s2 s1 (hpaso e s s2 hs hp) h
  intro s hs
  rcases hs with ⟨es, hes⟩
  exact key es sistemaInicial s h0 hes

/-! ## Tower gate -/

/-- The feed never touches the gate counter, the capacity or the pool. -/
theorem procesarMensajeServidor_conserva (m : String) (g : Global) :
    (procesarMensajeServidor m g).avionesProcesando = g.avionesProcesando ∧
    (procesarMensajeServidor m g).capacidad = g.capacidad ∧
    (procesarMensajeServidor m g).pistas = g.pistas ∧
    (procesarMensajeServidor m g).canal = g.canal := by
  unfold procesarMensajeServidor
  simp only
  split
  · exact ⟨rfl, rfl, rfl, rfl⟩
  · split
    · exact ⟨rfl, rfl, rfl, rfl⟩
    · split <;> exact ⟨rfl, rfl, rfl, rfl⟩

/-- One atomic step of an invocation keeps its counters in line with its
control point, changes the gate counter by what it adds to its own slots,
and enters the gate only below `maxEspera`. -/
theorem pasoAvion_torre (g g1 : Global) (h h1 : Hilo)
    (hp : pasoAvion g h = some (g1, h1)) (hc : contadoresEn h) :
    contadoresEn h1 ∧
    g1.avionesProcesando + dentro h = g.avionesProcesando + dentro h1 ∧
    (g.avionesProcesando ≤ maxEspera → g1.avionesProcesando ≤ maxEspera) ∧
    g1.capacidad = g.capacidad := by
  obtain ⟨av, pc, inc, dec⟩ := h
  unfold pasoAvion at hp
  cases pc with
  | entrar =>
    simp only at hp
    simp only [contadoresEn] at hc
    split at hp
    · cases hp
      simp [contadoresEn, dentro, hc.1, hc.2]
    · rename_i hlt
      cases hp
      obtain ⟨rfl, rfl⟩ := hc
      refine ⟨by simp [contadoresEn], by simp [dentro], ?_, rfl⟩
      intro _
      simp only [ge_iff_le, not_le] at hlt
      show g.avionesProcesando + 1 ≤ maxEspera
      omega
  | reencolarCongestion =>
    cases hp
    simp only [contadoresEn] at hc
    simp [contadoresEn, dentro, hc.1, hc.2]
  | leerEstado =>
    simp only at hp
    simp only [contadoresEn] at hc
    split at hp <;> cases hp <;> simp [contadoresEn, dentro, hc.1, hc.2]
  | salirDenegado =>
    cases hp
    simp only [contadoresEn] at hc
    obtain ⟨rfl, rfl⟩ := hc
    refine ⟨by simp [contadoresEn], by simp [dentro], ?_, rfl⟩
    intro hle
    show g.avionesProcesando - 1 ≤ maxEspera
    omega
  | reencolarDenegado =>
    cases hp
    simp only [contadoresEn] at hc
    simp [contadoresEn, dentro, hc.1, hc.2]
  | buscarPista i =>
    simp only at hp
    simp only [contadoresEn] at hc
    split at hp
    · cases hp
      simp [contadoresEn, dentro, hc.1, hc.2]
    · split at hp <;> cases hp <;> simp [contadoresEn, dentro, hc.1, hc.2]
  | liberarPista i =>
    simp only at hp
    simp only [contadoresEn] at hc
    split at hp
    · cases hp
    · cases hp
      simp [contadoresEn, dentro, hc.1, hc.2]
  | reencolarSinPista =>
    simp only at hp
    simp only [contadoresEn] at hc
    split at hp
    · cases hp
      simp [contadoresEn, dentro, hc.1, hc.2]
    · cases hp
  | salirFinal c =>
    cases hp
    simp only [contadoresEn] at hc
    obtain ⟨rfl, rfl, hcc⟩ := hc
    refine ⟨by simp [contadoresEn, hcc], by simp [dentro], ?_, rfl⟩
    intro hle
    show g.avionesProcesando - 1 ≤ maxEspera
    omega
  | terminado c => cases hp

/-- The gate invariant holds in the state `Run` sets up. -/
theorem invTorre_inicial : InvTorre sistemaInicial := by
  refine ⟨?_, ?_, ?_, rfl⟩
  · intro h hh
    simp [sistemaInicial] at hh
  · simp [sistemaInicial]
  · simp [sistemaInicial, maxEspera]

/-- Every transition preserves the gate invariant. -/
theorem invTorre_paso (e : Evento) (s s1 : Sistema) (hs : InvTorre s)
    (hp : paso e s = some s1) : InvTorre s1 := by
  obtain ⟨hcont, hsum, hle, hcap⟩ := hs
  have hnuevo : ∀ a, contadoresEn (nuevoHilo a) := by
    intro a
    simp [contadoresEn, nuevoHilo]
  have hdn : ∀ a, dentro (nuevoHilo a) = 0 := by
    intro a
    simp [dentro, nuevoHilo]
  cases e with
  | lanzar a =>
    simp only [paso, Option.some.injEq] at hp
    subst hp
    refine ⟨?_, ?_, hle, hcap⟩
    · intro h hh
      simp only [List.mem_append, List.mem_singleton] at hh
      rcases hh with hh | rfl
      · exact hcont h hh
      · exact hnuevo a
    · simp [hsum, hdn]
  | despachar =>
    simp only [paso] at hp
    cases hcanal : s.g.canal with
    | nil => rw [hcanal] at hp; cases hp
    | cons a resto =>
      rw [hcanal] at hp
      simp only [Option.some.injEq] at hp
      subst hp
      refine ⟨?_, ?_, hle, hcap⟩
      · intro h hh
        simp only [List.mem_append, List.mem_singleton] at hh
        rcases hh with hh | rfl
        · exact hcont h hh
        · exact hnuevo a
      · simp [hsum, hdn]
  | generar a =>
    simp only [paso] at hp
    split at hp
    · simp only [Option.some.injEq] at hp
      subst hp
      exact ⟨hcont, hsum, hle, hcap⟩
    · cases hp
  | mensaje m =>
    simp only [paso, Option.some.injEq] at hp
    subst hp
    have hm := procesarMensajeServidor_conserva (stringsTrimSpace m) s.g
    refine ⟨hcont, ?_, ?_, ?_⟩
    · show (procesarMensajeServidor (stringsTrimSpace m) s.g).avionesProcesando = _
      rw [hm.1]; exact hsum
    · show (procesarMensajeServidor (stringsTrimSpace m) s.g).avionesProcesando ≤ _
      rw [hm.1]; exact hle
    · show (procesarMensajeServidor (stringsTrimSpace m) s.g).capacidad = _
      rw [hm.2.1]; exact hcap
  | avanzar i =>
    simp only [paso] at hp
    cases hi : s.hilos[i]? with
    | none => rw [hi] at hp; cases hp
    | some h =>
      rw [hi] at hp
      simp only at hp
      cases hpa : pasoAvion s.g h with
      | none => rw [hpa] at hp; cases hp
      | some r =>
        obtain ⟨g1, h1⟩ := r
        rw [hpa] at hp
        simp only [Option.some.injEq] at hp
        subst hp
        have hmem : h ∈ s.hilos := List.getElem?_mem hi
        obtain ⟨hc1, hbal, hle1, hcap1⟩ := pasoAvion_torre s.g g1 h h1 hpa (hcont h hmem)
        refine ⟨?_, ?_, hle1 hle, ?_⟩
        · intro x hx
          rcases List.mem_or_eq_of_mem_set hx with hx | rfl
          · exact hcont x hx
          · exact hc1
        · have hset := suma_map_set dentro s.hilos i h h1 hi
          show g1.avionesProcesando = ((s.hilos.set i h1).map dentro).sum
          omega
        · show g1.capacidad = maxEspera
          rw [hcap1]; exact hcap

/-- The slots an invocation holds are 0 or 1. -/
theorem dentro_cota (h : Hilo) (hc : contadoresEn h) : 0 ≤ dentro h ∧ dentro h ≤ 1 := by
  obtain ⟨av, pc, inc, dec⟩ := h
  cases pc <;> simp only [contadoresEn] at hc
  all_goals (try split at hc)
  all_goals (simp only [dentro]; omega)

/-- A sum of slots is not negative. -/
theorem suma_dentro_no_negativa :
    ∀ (l : List Hilo), (∀ h ∈ l, contadoresEn h) → 0 ≤ (l.map dentro).sum := by
  intro l
  induction l with
  | nil => intro _; simp
  | cons x xs ih =>
    intro hall
    have h1 := (dentro_cota x (hall x (by simp))).1
    have h2 := ih (fun h hh => hall h (by simp [hh]))
    simp only [List.map_cons, List.sum_cons]
    omega

/-- The slots of invocations that have all returned add up to 0. -/
theorem suma_dentro_terminados :
    ∀ (l : List Hilo), (∀ h ∈ l, contadoresEn h) → (∀ h ∈ l, ∃ c, h.pc = PC.terminado c) →
      (l.map dentro).sum = 0 := by
  intro l
  induction l with
  | nil => intro _ _; simp
  | cons x xs ih =>
    intro hall hterm
    have h2 := ih (fun h hh => hall h (by simp [hh])) (fun h hh => hterm h (by simp [hh]))
    have hx := hall x (by simp)
    obtain ⟨c, hc⟩ := hterm x (by simp)
    have h1 : dentro x = 0 := by
      obtain ⟨av, pc, inc, dec⟩ := x
      simp only at hc
      subst hc
      simp only [contadoresEn] at hx
      split at hx <;> simp [dentro, hx.1, hx.2]
    simp only [List.map_cons, List.sum_cons]
    omega

/-! ## Runway pool -/

/-- What one atomic step of an invocation does to the pool: nothing, the
claim of the free runway under the scan, or the release of the runway held. -/
theorem pasoAvion_pistas (g g1 : Global) (h h1 : Hilo)
    (hp : pasoAvion g h = some (g1, h1)) :
    (g1.pistas = g.pistas ∧ (∀ j, h.pc ≠ PC.liberarPista j) ∧
      (∀ j, h1.pc ≠ PC.liberarPista j)) ∨
    (∃ i p, h.pc = PC.buscarPista i ∧ g.pistas[i]? = some p ∧ p.ocupada = false ∧
      g1.pistas = g.pistas.set i { p with ocupada := true } ∧ h1.pc = PC.liberarPista i) ∨
    (∃ i p, h.pc = PC.liberarPista i ∧ g.pistas[i]? = some p ∧
      g1.pistas = g.pistas.set i { p with ocupada := false } ∧
      h1.pc = PC.salirFinal Camino.completado) := by
  obtain ⟨av, pc, inc, dec⟩ := h
  unfold pasoAvion at hp
  cases pc with
  | entrar =>
    simp only at hp
    split at hp <;> cases hp <;> exact Or.inl ⟨rfl, by simp, by simp⟩
  | reencolarCongestion => cases hp; exact Or.inl ⟨rfl, by simp, by simp⟩
  | leerEstado =>
    simp only at hp
    split at hp <;> cases hp <;> exact Or.inl ⟨rfl, by simp, by simp⟩
  | salirDenegado => cases hp; exact Or.inl ⟨rfl, by simp, by simp⟩
  | reencolarDenegado => cases hp; exact Or.inl ⟨rfl, by simp, by simp⟩
  | buscarPista i =>
    simp only at hp
    split at hp
    · cases hp; exact Or.inl ⟨rfl, by simp, by simp⟩
    · rename_i p hpi
      split at hp
      · rename_i hfree
        cases hp
        refine Or.inr (Or.inl ⟨i, p, rfl, hpi, ?_, rfl, rfl⟩)
        simpa using hfree
      · cases hp; exact Or.inl ⟨rfl, by simp, by simp⟩
  | liberarPista i =>
    simp only at hp
    split at hp
    · cases hp
    · rename_i p hpi
      cases hp
      exact Or.inr (Or.inr ⟨i, p, rfl, hpi, rfl, rfl⟩)
  | reencolarSinPista =>
    simp only at hp
    split at hp
    · cases hp; exact Or.inl ⟨rfl, by simp, by simp⟩
    · cases hp
  | salirFinal c => cases hp; exact Or.inl ⟨rfl, by simp, by simp⟩
  | terminado c => cases hp

/-- The flag count of a pool after one flag is rewritten. -/
theorem marcaOcupada_set (pistas : List Pista) (i j : Nat) (p q : Pista)
    (hp : pistas[i]? = some p) :
    marcaOcupada (pistas.set i q) j
      = if i = j then (if q.ocupada then 1 else 0) else marcaOcupada pistas j := by
  have hi : i < pistas.length := by
    rcases List.getElem?_eq_some.mp hp with ⟨h, _⟩
    exact h
  unfold marcaOcupada
  rw [List.getElem?_set]
  by_cases hij : i = j
  · subst hij
    simp [hi]
  · simp [hij]

/-- One atomic step of an invocation keeps, runway by runway, the balance
between the flag and the holders, when a holder implies a set flag. -/
theorem pasoAvion_balance_pistas (g g1 : Global) (h h1 : Hilo)
    (hp : pasoAvion g h = some (g1, h1))
    (hle : ∀ j, titular j h ≤ marcaOcupada g.pistas j) :
    ∀ j, marcaOcupada g1.pistas j + titular j h = marcaOcupada g.pistas j + titular j h1 := by
  intro j
  rcases pasoAvion_pistas g g1 h h1 hp with ⟨hpis, hno, hno1⟩ | ⟨i, p, hpc, hpi, hfree, hpis, hpc1⟩ |
      ⟨i, p, hpc, hpi, hpis, hpc1⟩
  · rw [hpis]
    simp [titular, hno j, hno1 j]
  · rw [hpis, marcaOcupada_set g.pistas i j p _ hpi]
    by_cases hij : i = j
    · subst hij
      simp [titular, hpc, hpc1, marcaOcupada, hpi, hfree]
    · have : ¬ (PC.liberarPista i = PC.liberarPista j) := by
        intro hh; injection hh with hh; exact hij hh
      simp [titular, hpc, hpc1, hij, this]
  · rw [hpis, marcaOcupada_set g.pistas i j p _ hpi]
    by_cases hij : i = j
    · subst hij
      have h1le := hle i
      have hm : marcaOcupada g.pistas i ≤ 1 := by
        simp only [marcaOcupada, hpi]
        split <;> omega
      simp only [titular, hpc, if_true] at h1le
      simp [titular, hpc, hpc1]
      omega
    · have : ¬ (PC.liberarPista i = PC.liberarPista j) := by
        intro hh; injection hh with hh; exact hij hh
      simp [titular, hpc, hpc1, hij, this]

/-- The pool invariant holds in the state `Run` sets up. -/
theorem invPistas_inicial : InvPistas sistemaInicial := by
  intro j
  simp only [sistemaInicial, List.map_nil, List.sum_nil, marcaOcupada, pistasIniciales]
  cases hj : (List.map (fun (i : Nat) => ({ ID := (i : Int), ocupada := false } : Pista))
      (List.range numPistas))[j]? with
  | none => rfl
  | some p =>
    have hmem := List.getElem?_mem hj
    simp only [List.mem_map] at hmem
    obtain ⟨i, _, rfl⟩ := hmem
    simp

/-- Every transition preserves the pool invariant. -/
theorem invPistas_paso (e : Evento) (s s1 : Sistema) (hs : InvPistas s)
    (hp : paso e s = some s1) : InvPistas s1 := by
  have hnuevo : ∀ a j, titular j (nuevoHilo a) = 0 := by
    intro a j
    simp [titular, nuevoHilo]
  cases e with
  | lanzar a =>
    simp only [paso, Option.some.injEq] at hp
    subst hp
    intro j
    simp [hnuevo, hs j]
  | despachar =>
    simp only [paso] at hp
    cases hcanal : s.g.canal with
    | nil => rw [hcanal] at hp; cases hp
    | cons a resto =>
      rw [hcanal] at hp
      simp only [Option.some.injEq] at hp
      subst hp
      intro j
      simp [hnuevo, hs j]
  | generar a =>
    simp only [paso] at hp
    split at hp
    · simp only [Option.some.injEq] at hp
      subst hp
      exact hs
    · cases hp
  | mensaje m =>
    simp only [paso, Option.some.injEq] at hp
    subst hp
    intro j
    show _ = marcaOcupada (procesarMensajeServidor (stringsTrimSpace m) s.g).pistas j
    rw [(procesarMensajeServidor_conserva (stringsTrimSpace m) s.g).2.2.1]
    exact hs j
  | avanzar i =>
    simp only [paso] at hp
    cases hi : s.hilos[i]? with
    | none => rw [hi] at hp; cases hp
    | some h =>
      rw [hi] at hp
      simp only at hp
      cases hpa : pasoAvion s.g h with
      | none => rw [hpa] at hp; cases hp
      | some r =>
        obtain ⟨g1, h1⟩ := r
        rw [hpa] at hp
        simp only [Option.some.injEq] at hp
        subst hp
        intro j
        have hle : ∀ k, titular k h ≤ marcaOcupada s.g.pistas k := by
          intro k
          rw [← hs k]
          exact peso_le_suma (titular k) s.hilos i h hi
        have hbal := pasoAvion_balance_pistas s.g g1 h h1 hpa hle j
        have hset := suma_map_set (titular j) s.hilos i h h1 hi
        have := hs j
        show ((s.hilos.set i h1).map (titular j)).sum = marcaOcupada g1.pistas j
        omega

/-! ## The claims about the running program -/

/-- C3: in every state reachable from the one `Run` sets up, whatever the
interleaving and the number of invocations of `procesarAvion`,
`torre.avionesProcesando` lies between 0 and the tower capacity; and the
gate entry step of an invocation adds one to it exactly when it is below the
capacity and leaves it unchanged otherwise. -/
theorem torre_acotada (s : Sistema) (hs : Alcanzable s) :
    0 ≤ s.g.avionesProcesando ∧ s.g.avionesProcesando ≤ s.g.capacidad ∧
    s.g.capacidad = maxEspera ∧
    (∀ (i : Nat) (h : Hilo), s.hilos[i]? = some h → h.pc = PC.entrar →
      ∃ s1, paso (Evento.avanzar i) s = some s1 ∧
        (s.g.avionesProcesando < s.g.capacidad →
          s1.g.avionesProcesando = s.g.avionesProcesando + 1) ∧
        (¬ s.g.avionesProcesando < s.g.capacidad →
          s1.g.avionesProcesando = s.g.avionesProcesando)) := by
  have hinv := alcanzable_induccion InvTorre invTorre_inicial invTorre_paso s hs
  obtain ⟨hcont, hsum, hle, hcap⟩ := hinv
  refine ⟨?_, ?_, hcap, ?_⟩
  · rw [hsum]
    exact suma_dentro_no_negativa s.hilos hcont
  · rw [hcap]; exact hle
  · intro i h hi hpc
    obtain ⟨av, pc, inc, dec⟩ := h
    simp only at hpc
    subst hpc
    by_cases hlt : s.g.avionesProcesando < s.g.capacidad
    · have hge : ¬ s.g.avionesProcesando >= maxEspera := by rw [hcap] at hlt; omega
      have hpaso : paso (Evento.avanzar i) s
          = some ⟨{ s.g with avionesProcesando := s.g.avionesProcesando + 1 },
              s.hilos.set i ⟨av, PC.leerEstado, inc + 1, dec⟩⟩ := by
        simp only [paso, hi, pasoAvion, hge, if_false]
      exact ⟨_, hpaso, fun _ => rfl, fun hn => absurd hlt hn⟩
    · have hge : s.g.avionesProcesando >= maxEspera := by rw [hcap] at hlt; omega
      have hpaso : paso (Evento.avanzar i) s
          = some ⟨s.g, s.hilos.set i ⟨av, PC.reencolarCongestion, inc, dec⟩⟩ := by
        simp only [paso, hi, pasoAvion, hge, if_true]
      exact ⟨_, hpaso, fun hn => absurd hn hlt, fun _ => rfl⟩

/-- C4: in every reachable state, an invocation of `procesarAvion` that has
returned has decremented `torre.avionesProcesando` as often as it has
incremented it, never on the congestion path and once on each other path;
the counter is the number of slots held by the invocations under way, and
it is 0 when all of them have returned. -/
theorem salida_por_cada_entrada (s : Sistema) (hs : Alcanzable s) :
    (∀ h ∈ s.hilos, ∀ c, h.pc = PC.terminado c →
      h.decrementos = h.incrementos ∧
      h.incrementos = (if c = Camino.congestion then 0 else 1)) ∧
    s.g.avionesProcesando
      = (s.hilos.map fun h => (h.incrementos : Int) - (h.decrementos : Int)).sum ∧
    ((∀ h ∈ s.hilos, ∃ c, h.pc = PC.terminado c) → s.g.avionesProcesando = 0) := by
  have hinv := alcanzable_induccion InvTorre invTorre_inicial invTorre_paso s hs
  obtain ⟨hcont, hsum, hle, hcap⟩ := hinv
  refine ⟨?_, hsum, ?_⟩
  · intro h hh c hc
    have := hcont h hh
    obtain ⟨av, pc, inc, dec⟩ := h
    simp only at hc
    subst hc
    simp only [contadoresEn] at this
    split at this
    · rename_i hcc
      simp [this.1, this.2, hcc]
    · rename_i hcc
      simp [this.1, this.2, hcc]
  · intro hterm
    rw [hsum]
    exact suma_dentro_terminados s.hilos hcont hterm

/-- C6: in every state reachable from the pool `Run` builds, no runway is held
by two invocations at once and a held runway is marked occupied; a
transition makes an invocation the holder of runway `j` only by its own step
taken while the flag of `j` is false, and a set flag is cleared only by a
step of the invocation that holds that runway. -/
theorem pistas_exclusion_mutua (s : Sistema) (hs : Alcanzable s) :
    (∀ (i1 i2 j : Nat) (h1 h2 : Hilo), s.hilos[i1]? = some h1 → s.hilos[i2]? = some h2 →
      h1.pc = PC.liberarPista j → h2.pc = PC.liberarPista j → i1 = i2) ∧
    (∀ (i j : Nat) (h : Hilo), s.hilos[i]? = some h → h.pc = PC.liberarPista j →
      ∃ p, s.g.pistas[j]? = some p ∧ p.ocupada = true) ∧
    (∀ (e : Evento) (s1 : Sistema), paso e s = some s1 →
      (∀ (i j : Nat) (h h1 : Hilo), s.hilos[i]? = some h → s1.hilos[i]? = some h1 →
        h.pc ≠ PC.liberarPista j → h1.pc = PC.liberarPista j →
        e = Evento.avanzar i ∧
        ∃ p, s.g.pistas[j]? = some p ∧ p.ocupada = false ∧
          s1.g.pistas[j]? = some { ID := p.ID, ocupada := true }) ∧
      (∀ (j : Nat) (p p1 : Pista), s.g.pistas[j]? = some p → p.ocupada = true →
        s1.g.pistas[j]? = some p1 → p1.ocupada = false →
        ∃ i h, e = Evento.avanzar i ∧ s.hilos[i]? = some h ∧ h.pc = PC.liberarPista j)) := by
  have hinv := alcanzable_induccion InvPistas invPistas_inicial invPistas_paso s hs
  have hm1 : ∀ j, marcaOcupada s.g.pistas j ≤ 1 := by
    intro j
    unfold marcaOcupada
    split
    · split <;> omega
    · omega
  refine ⟨?_, ?_, ?_⟩
  · intro i1 i2 j h1 h2 hi1 hi2 hp1 hp2
    by_contra hne
    have := pesos_le_suma (titular j) s.hilos i1 i2 h1 h2 hne hi1 hi2
    rw [hinv j] at this
    have := hm1 j
    simp only [titular, hp1, hp2, if_true] at *
    omega
  · intro i j h hi hpc
    have := peso_le_suma (titular j) s.hilos i h hi
    rw [hinv j] at this
    simp only [titular, hpc, if_true] at this
    unfold marcaOcupada at this
    cases hj : s.g.pistas[j]? with
    | none => rw [hj] at this; simp at this
    | some p =>
      rw [hj] at this
      refine ⟨p, rfl, ?_⟩
      by_contra hno
      simp [hno] at this
  · intro e s1 hp
    cases e with
    | lanzar a =>
      simp only [paso, Option.some.injEq] at hp
      subst hp
      constructor
      · intro i j h h1 hi hi1 hn hy
        have hlen : i < s.hilos.length := by
          rcases List.getElem?_eq_some.mp hi with ⟨hh, _⟩
          exact hh
        simp only [List.getElem?_append_left hlen, hi, Option.some.injEq] at hi1
        subst hi1
        exact absurd hy hn
      · intro j p p1 hj ho hj1 ho1
        simp only [hj, Option.some.injEq] at hj1
        subst hj1
        rw [ho] at ho1
        cases ho1
    | despachar =>
      simp only [paso] at hp
      cases hcanal : s.g.canal with
      | nil => rw [hcanal] at hp; cases hp
      | cons a resto =>
        rw [hcanal] at hp
        simp only [Option.some.injEq] at hp
        subst hp
        constructor
        · intro i j h h1 hi hi1 hn hy
          have hlen : i < s.hilos.length := by
            rcases List.getElem?_eq_some.mp hi with ⟨hh, _⟩
            exact hh
          simp only [List.getElem?_append_left hlen, hi, Option.some.injEq] at hi1
          subst hi1
          exact absurd hy hn
        · intro j p p1 hj ho hj1 ho1
          simp only [hj, Option.some.injEq] at hj1
          subst hj1
          rw [ho] at ho1
          cases ho1
    | generar a =>
      simp only [paso] at hp
      split at hp
      · simp only [Option.some.injEq] at hp
        subst hp
        constructor
        · intro i j h h1 hi hi1 hn hy
          simp only [hi, Option.some.injEq] at hi1
          subst hi1
          exact absurd hy hn
        · intro j p p1 hj ho hj1 ho1
          simp only [hj, Option.some.injEq] at hj1
          subst hj1
          rw [ho] at ho1
          cases ho1
      · cases hp
    | mensaje m =>
      simp only [paso, Option.some.injEq] at hp
      subst hp
      constructor
      · intro i j h h1 hi hi1 hn hy
        simp only [hi, Option.some.injEq] at hi1
        subst hi1
        exact absurd hy hn
      · intro j p p1 hj ho hj1 ho1
        have hc := (procesarMensajeServidor_conserva (stringsTrimSpace m) s.g).2.2.1
        simp only [hc, hj, Option.some.injEq] at hj1
        subst hj1
        rw [ho] at ho1
        cases ho1
    | avanzar k =>
      simp only [paso] at hp
      cases hk : s.hilos[k]? with
      | none => rw [hk] at hp; cases hp
      | some hk0 =>
        rw [hk] at hp
        simp only at hp
        cases hpa : pasoAvion s.g hk0 with
        | none => rw [hpa] at hp; cases hp
        | some r =>
          obtain ⟨g1, hk1⟩ := r
          rw [hpa] at hp
          simp only [Option.some.injEq] at hp
          subst hp
          have hklen : k < s.hilos.length := by
            rcases List.getElem?_eq_some.mp hk with ⟨hh, _⟩
            exact hh
          have htri := pasoAvion_pistas s.g g1 hk0 hk1 hpa
          constructor
          · intro i j h h1 hi hi1 hn hy
            by_cases hki : k = i
            · subst hki
              simp only [hk, Option.some.injEq] at hi
              subst hi
              simp only [List.getElem?_set_self hklen, Option.some.injEq] at hi1
              subst hi1
              refine ⟨rfl, ?_⟩
              rcases htri with ⟨_, _, hno1⟩ | ⟨i2, p, hpc, hpi, hfree, hpis, hpc1⟩ |
                  ⟨i2, p, hpc, _, _, hpc1⟩
              · exact absurd hy (hno1 j)
              · rw [hpc1] at hy
                injection hy with hy
                subst hy
                refine ⟨p, hpi, hfree, ?_⟩
                have hilen : i2 < s.g.pistas.length := by
                  rcases List.getElem?_eq_some.mp hpi with ⟨hh, _⟩
                  exact hh
                show g1.pistas[i2]? = _
                rw [hpis, List.getElem?_set_self hilen]
              · rw [hpc1] at hy
                cases hy
            · simp only [List.getElem?_set_ne hki, hi, Option.some.injEq] at hi1
              subst hi1
              exact absurd hy hn
          · intro j p p1 hj ho hj1 ho1
            refine ⟨k, hk0, rfl, hk, ?_⟩
            have hj1b : g1.pistas[j]? = some p1 := hj1
            rcases htri with ⟨hpis, _, _⟩ | ⟨i2, q, hpc, hpi, hfree, hpis, hpc1⟩ |
                ⟨i2, q, hpc, hpi, hpis, hpc1⟩
            · rw [hpis, hj] at hj1b
              cases hj1b
              rw [ho] at ho1
              cases ho1
            · rw [hpis, List.getElem?_set] at hj1b
              by_cases hij : i2 = j
              · subst hij
                rw [hj] at hpi
                cases hpi
                rw [ho] at hfree
                cases hfree
              · simp only [hij, if_false, hj, Option.some.injEq] at hj1b
                subst hj1b
                rw [ho] at ho1
                cases ho1
            · rw [hpis, List.getElem?_set] at hj1b
              by_cases hij : i2 = j
              · subst hij
                exact hpc
              · simp only [hij, if_false, hj, Option.some.injEq] at hj1b
                subst hj1b
                rw [ho] at ho1
                cases ho1

/-- In a reachable state an invocation that has not returned can take its
next step, unless it waits at the blocking send of line 130 for room in the
channel: no other control point gets stuck. -/
theorem invocacion_avanza (s : Sistema) (hs : Alcanzable s) (i : Nat) (h : Hilo)
    (hi : s.hilos[i]? = some h) (hno : ∀ c, h.pc ≠ PC.terminado c)
    (hsend : h.pc = PC.reencolarSinPista → (s.g.canal.length : Int) < maxEspera) :
    ∃ s1, paso (Evento.avanzar i) s = some s1 := by
  have hinv := alcanzable_induccion InvPistas invPistas_inicial invPistas_paso s hs
  have hstep : ∃ r, pasoAvion s.g h = some r := by
    obtain ⟨av, pc, inc, dec⟩ := h
    cases pc with
    | entrar =>
      unfold pasoAvion
      simp only
      split <;> exact ⟨_, rfl⟩
    | reencolarCongestion => exact ⟨_, rfl⟩
    | leerEstado =>
      unfold pasoAvion
      simp only
      split <;> exact ⟨_, rfl⟩
    | salirDenegado => exact ⟨_, rfl⟩
    | reencolarDenegado => exact ⟨_, rfl⟩
    | buscarPista j =>
      unfold pasoAvion
      simp only
      split
      · exact ⟨_, rfl⟩
      · split <;> exact ⟨_, rfl⟩
    | liberarPista j =>
      have hle := peso_le_suma (titular j) s.hilos i _ hi
      rw [hinv j] at hle
      simp only [titular, if_true] at hle
      unfold pasoAvion
      simp only
      cases hj : s.g.pistas[j]? with
      | none =>
        simp only [marcaOcupada, hj] at hle
        omega
      | some p => exact ⟨_, rfl⟩
    | reencolarSinPista =>
      have := hsend rfl
      unfold pasoAvion
      simp only [this, if_true]
      exact ⟨_, rfl⟩
    | salirFinal c => exact ⟨_, rfl⟩
    | terminado c => exact absurd rfl (hno c)
  obtain ⟨⟨g1, h1⟩, hr⟩ := hstep
  exact ⟨{ g := g1, hilos := s.hilos.set i h1 }, by simp only [paso, hi, hr]⟩

/-- The atomic steps of the scan of an invocation, taken without
interference from index `i` on, do what the loop of lines 104-114 does. -/
theorem escanearHilo_desde (avion : Avion) (inc dec : Nat) :
    ∀ (n i : Nat) (g : Global), g.pistas.length ≤ i + n →
      escanearHilo (n + 1) g ⟨avion, PC.buscarPista i, inc, dec⟩
        = ({ g with pistas := (escanearPistas n i g.pistas).2 },
           ⟨avion,
            if 0 ≤ (escanearPistas n i g.pistas).1
              then PC.liberarPista (escanearPistas n i g.pistas).1.toNat
              else PC.reencolarSinPista,
            inc, dec⟩) := by
  intro n
  induction n with
  | zero =>
    intro i g hlen
    have hnone : g.pistas[i]? = none := by
      rw [List.getElem?_eq_none_iff]
      omega
    simp [escanearHilo, pasoAvion, hnone, escanearPistas]
  | succ n ih =>
    intro i g hlen
    cases hp : g.pistas[i]? with
    | none =>
      simp [escanearHilo, pasoAvion, hp, escanearPistas]
    | some p =>
      by_cases hocc : p.ocupada = true
      · have h1 := ih (i + 1) g (by omega)
        rw [escanearHilo]
        simp only [pasoAvion, hp, hocc, Bool.not_true, Bool.false_eq_true, if_false]
        rw [h1]
        simp only [escanearPistas, hp, hocc, Bool.not_true, Bool.false_eq_true, if_false]
      · have hfree : p.ocupada = false := by simpa using hocc
        rw [escanearHilo]
        simp [pasoAvion, hp, hfree, escanearPistas, escanearHilo]

/-- The atomic steps of the scan of an invocation, taken without
interference, claim the runway that `asignarPista` returns, and lead to the
requeue of line 130 when it returns -1. -/
theorem escanearHilo_asignarPista (avion : Avion) (inc dec : Nat) (g : Global) :
    escanearHilo (g.pistas.length + 1) g ⟨avion, PC.buscarPista 0, inc, dec⟩
      = ({ g with pistas := (asignarPista g.pistas).2 },
         ⟨avion,
          if 0 ≤ (asignarPista g.pistas).1
            then PC.liberarPista (asignarPista g.pistas).1.toNat
            else PC.reencolarSinPista,
          inc, dec⟩) :=
  escanearHilo_desde avion inc dec g.pistas.length 0 g (by omega)

/-- With five invocations inside the gate the counter is 5, within its
bounds, and the gate entry step of the sixth leaves it at 5. -/
theorem torre_acotada_witness :
    (estadoTras trazaTorreLlena).g.avionesProcesando = 5 ∧
    (0 ≤ (estadoTras trazaTorreLlena).g.avionesProcesando ∧
      (estadoTras trazaTorreLlena).g.avionesProcesando
        ≤ (estadoTras trazaTorreLlena).g.capacidad) ∧
    (∃ s1, paso (Evento.avanzar 5) (estadoTras trazaTorreLlena) = some s1 ∧
      s1.g.avionesProcesando = (estadoTras trazaTorreLlena).g.avionesProcesando) :=
  ⟨by decide,
   ⟨(torre_acotada (estadoTras trazaTorreLlena) ⟨trazaTorreLlena, by decide⟩).1,
    (torre_acotada (estadoTras trazaTorreLlena) ⟨trazaTorreLlena, by decide⟩).2.1⟩,
   match (torre_acotada (estadoTras trazaTorreLlena) ⟨trazaTorreLlena, by decide⟩).2.2.2
      5 ⟨avionEjemplo 5, PC.entrar, 0, 0⟩ (by decide) rfl with
   | ⟨s1, h1, _, h3⟩ => ⟨s1, h1, h3 (by decide)⟩⟩

/-- After the whole schedule the six invocations have returned, one by the
congestion path, one denied, one requeued for lack of a runway and three
after landing, and the counter is back to 0. -/
theorem salida_por_cada_entrada_witness :
    ((estadoTras trazaTodosTerminados).hilos.map fun h => h.pc)
      = [PC.terminado Camino.completado, PC.terminado Camino.completado,
         PC.terminado Camino.completado, PC.terminado Camino.sinPista,
         PC.terminado Camino.denegado, PC.terminado Camino.congestion] ∧
    (∀ h ∈ (estadoTras trazaTodosTerminados).hilos, ∀ c, h.pc = PC.terminado c →
      h.decrementos = h.incrementos ∧
      h.incrementos = (if c = Camino.congestion then 0 else 1)) ∧
    (estadoTras trazaTodosTerminados).g.avionesProcesando = 0 :=
  ⟨by decide,
   (salida_por_cada_entrada (estadoTras trazaTodosTerminados)
      ⟨trazaTodosTerminados, by decide⟩).1,
   (salida_por_cada_entrada (estadoTras trazaTodosTerminados)
      ⟨trazaTodosTerminados, by decide⟩).2.2 (by
        intro h hh
        have hpcs : ((estadoTras trazaTodosTerminados).hilos.map fun h => h.pc)
            = [PC.terminado Camino.completado, PC.terminado Camino.completado,
               PC.terminado Camino.completado, PC.terminado Camino.sinPista,
               PC.terminado Camino.denegado, PC.terminado Camino.congestion] := by decide
        have hmem : h.pc ∈ ((estadoTras trazaTodosTerminados).hilos.map fun h => h.pc) :=
          List.mem_map_of_mem _ hh
        rw [hpcs] at hmem
        simp only [List.mem_cons, List.mem_singleton, List.not_mem_nil, or_false] at hmem
        rcases hmem with h1 | h1 | h1 | h1 | h1 | h1 <;> exact ⟨_, h1⟩)⟩

/-- With the three runways held by the invocations 0, 1 and 2, the holder of
runway 1 is unique, its flag is set, and the release by the invocation 1 is
the step that clears it. -/
theorem pistas_exclusion_mutua_witness :
    ((estadoTras trazaPistasTomadas).hilos.map fun h => h.pc)
      = [PC.liberarPista 0, PC.liberarPista 1, PC.liberarPista 2,
         PC.terminado Camino.sinPista, PC.terminado Camino.denegado,
         PC.terminado Camino.congestion] ∧
    (∀ (i1 i2 : Nat) (h1 h2 : Hilo), (estadoTras trazaPistasTomadas).hilos[i1]? = some h1 →
      (estadoTras trazaPistasTomadas).hilos[i2]? = some h2 →
      h1.pc = PC.liberarPista 1 → h2.pc = PC.liberarPista 1 → i1 = i2) ∧
    (∃ p, (estadoTras trazaPistasTomadas).g.pistas[1]? = some p ∧ p.ocupada = true) ∧
    (∃ i h, Evento.avanzar 1 = Evento.avanzar i ∧
      (estadoTras trazaPistasTomadas).hilos[i]? = some h ∧ h.pc = PC.liberarPista 1) :=
  ⟨by decide,
   fun i1 i2 h1 h2 =>
     (pistas_exclusion_mutua (estadoTras trazaPistasTomadas)
        ⟨trazaPistasTomadas, by decide⟩).1 i1 i2 1 h1 h2,
   (pistas_exclusion_mutua (estadoTras trazaPistasTomadas)
      ⟨trazaPistasTomadas, by decide⟩).2.1 1 1 ⟨avionEjemplo 1, PC.liberarPista 1, 1, 0⟩
      (by decide) rfl,
   ((pistas_exclusion_mutua (estadoTras trazaPistasTomadas)
      ⟨trazaPistasTomadas, by decide⟩).2.2 (Evento.avanzar 1)
      ((paso (Evento.avanzar 1) (estadoTras trazaPistasTomadas)).getD sistemaInicial)
      (by decide)).2 1 ⟨1, true⟩ ⟨1, false⟩ (by decide) rfl (by decide) rfl⟩

/-! ## The map of the harness -/

/-- A write through a pointer keeps the keys. -/
theorem claves_modificarMapa (f : EstadoAvion → EstadoAvion) :
    ∀ (m : List (Int × EstadoAvion)) (k : Int), claves (modificarMapa f m k) = claves m := by
  intro m
  induction m with
  | nil => intro k; rfl
  | cons kv r ih =>
    intro k
    obtain ⟨k1, v1⟩ := kv
    unfold modificarMapa
    by_cases h : k1 = k
    · simp [h, claves]
    · have := ih k
      simp only [claves] at this
      simp [h, claves, this]

/-- A lookup after a write through the pointer stored under `k`. -/
theorem buscarMapa_modificarMapa (f : EstadoAvion → EstadoAvion) :
    ∀ (m : List (Int × EstadoAvion)) (k x : Int),
      buscarMapa (modificarMapa f m k) x
        = if x = k then (buscarMapa m k).map f else buscarMapa m x := by
  intro m
  induction m with
  | nil => intro k x; simp [modificarMapa, buscarMapa]
  | cons kv r ih =>
    intro k x
    obtain ⟨k1, v1⟩ := kv
    unfold modificarMapa
    by_cases h : k1 = k
    · subst h
      by_cases hx : x = k1
      · subst hx
        simp [buscarMapa]
      · have hx2 : ¬ k1 = x := fun h => hx h.symm
        simp [buscarMapa, hx, hx2]
    · by_cases hx : x = k
      · subst hx
        simp [h, buscarMapa, ih]
      · by_cases h1 : k1 = x
        · subst h1
          simp [h, buscarMapa]
        · simp [h, buscarMapa, h1, ih, hx]

/-- A key of the map has an entry. -/
theorem buscarMapa_de_clave :
    ∀ (m : List (Int × EstadoAvion)) (k : Int), k ∈ claves m → ∃ ea, buscarMapa m k = some ea := by
  intro m
  induction m with
  | nil => intro k hk; simp [claves] at hk
  | cons kv r ih =>
    intro k hk
    obtain ⟨k1, v1⟩ := kv
    unfold buscarMapa
    by_cases h : k1 = k
    · exact ⟨v1, by simp [h]⟩
    · have hk2 : k ∈ claves r := by
        simp only [claves, List.map_cons, List.mem_cons] at hk
        rcases hk with hk | hk
        · exact absurd hk.symm h
        · exact hk
      obtain ⟨ea, hea⟩ := ih k hk2
      exact ⟨ea, by simp [h, hea]⟩

/-- An entry found by a lookup is an entry of the list. -/
theorem buscarMapa_mem :
    ∀ (m : List (Int × EstadoAvion)) (k : Int) (ea : EstadoAvion),
      buscarMapa m k = some ea → (k, ea) ∈ m := by
  intro m
  induction m with
  | nil => intro k ea h; simp [buscarMapa] at h
  | cons kv r ih =>
    intro k ea h
    obtain ⟨k1, v1⟩ := kv
    unfold buscarMapa at h
    by_cases hk : k1 = k
    · simp only [hk, if_true, Option.some.injEq] at h
      subst h
      subst hk
      exact List.mem_cons_self _ _
    · simp only [hk, if_false] at h
      exact List.mem_cons_of_mem _ (ih k ea h)

/-- An assignment under a new key adds one entry at the end. -/
theorem asignarMapa_nueva :
    ∀ (m : List (Int × EstadoAvion)) (k : Int) (v : EstadoAvion),
      k ∉ claves m → asignarMapa m k v = m ++ [(k, v)] := by
  intro m
  induction m with
  | nil => intro k v _; rfl
  | cons kv r ih =>
    intro k v hk
    obtain ⟨k1, v1⟩ := kv
    simp only [claves, List.map_cons, List.mem_cons, not_or] at hk
    have h1 : ¬ k1 = k := fun h => hk.1 h.symm
    have h2 : k ∉ claves r := hk.2
    unfold asignarMapa
    simp [h1, ih k v h2]

/-- One loop of lines 121-135: it adds the keys `N`, ..., `N + n - 1` to a map
whose keys are `0`, ..., `N - 1`, and every entry it adds has its own key as
identifier, no attempt and no success. -/
theorem claves_bucle (N : Nat) (kf : Nat → Int) (mk : Nat → EstadoAvion)
    (hk : ∀ i, kf i = ((N + i : Nat) : Int))
    (hmk : ∀ i, (mk i).intentos = 0 ∧ (mk i).procesado = false ∧ (mk i).avion.ID = kf i)
    (m0 : List (Int × EstadoAvion))
    (h0 : claves m0 = (List.range N).map fun (i : Nat) => (i : Int))
    (hv0 : ∀ kv ∈ m0, kv.2.intentos = 0 ∧ kv.2.procesado = false ∧ kv.2.avion.ID = kv.1) :
    ∀ n : Nat,
      claves ((List.range n).foldl (fun m i => asignarMapa m (kf i) (mk i)) m0)
        = (List.range (N + n)).map (fun (i : Nat) => (i : Int)) ∧
      ∀ kv ∈ (List.range n).foldl (fun m i => asignarMapa m (kf i) (mk i)) m0,
        kv.2.intentos = 0 ∧ kv.2.procesado = false ∧ kv.2.avion.ID = kv.1 := by
  intro n
  induction n with
  | zero => exact ⟨by simpa using h0, by simpa using hv0⟩
  | succ n ih =>
    obtain ⟨ihk, ihv⟩ := ih
    rw [List.range_succ, List.foldl_append]
    simp only [List.foldl_cons, List.foldl_nil]
    have hfresh : kf n ∉ claves ((List.range n).foldl (fun m i => asignarMapa m (kf i) (mk i)) m0) := by
      rw [ihk, hk n]
      simp only [List.mem_map, List.mem_range, not_exists, not_and]
      intro i hi heq
      have : i = N + n := by exact_mod_cast heq
      omega
    rw [asignarMapa_nueva _ _ _ hfresh]
    constructor
    · have hr : List.range (N + (n + 1)) = List.range (N + n) ++ [N + n] := by
        rw [← Nat.add_assoc, List.range_succ]
      rw [hr]
      simp only [claves, List.map_append, List.map_cons, List.map_nil]
      simp only [claves] at ihk
      rw [ihk, hk n]
    · intro kv hkv
      rcases List.mem_append.mp hkv with h | h
      · exact ihv kv h
      · simp only [List.mem_singleton] at h
        subst h
        exact hmk n

/-- The map built by lines 121-135 for a batch of non-negative sizes: its keys
are `0`, ..., `numA + numB + numC - 1`, each once and in this order, and
every entry starts with no attempt and no success. -/
theorem construirMapa_claves (numA numB numC : Int) (hA : 0 ≤ numA) (hB : 0 ≤ numB)
    (hC : 0 ≤ numC) :
    claves (construirMapa numA numB numC)
      = (List.range (numA + numB + numC).toNat).map (fun (i : Nat) => (i : Int)) ∧
    ∀ kv ∈ construirMapa numA numB numC,
      kv.2.intentos = 0 ∧ kv.2.procesado = false ∧ kv.2.avion.ID = kv.1 := by
  obtain ⟨A, rfl⟩ := Int.eq_ofNat_of_zero_le hA
  obtain ⟨B, rfl⟩ := Int.eq_ofNat_of_zero_le hB
  obtain ⟨C, rfl⟩ := Int.eq_ofNat_of_zero_le hC
  have e1 := claves_bucle 0 (fun (i : Nat) => (i : Int))
    (fun i => { avion := { ID := (i : Int), Categoria := "A", NumPasajeros := 101 + (i : Int) },
                intentos := 0, procesado := false })
    (by intro i; simp) (by intro i; simp) [] (by simp [claves]) (by simp) A
  have e2 := claves_bucle (0 + A) (fun i => (A : Int) + (i : Int))
    (fun i => { avion := { ID := (A : Int) + (i : Int), Categoria := "B",
                           NumPasajeros := 50 + (i : Int) },
                intentos := 0, procesado := false })
    (by intro i; push_cast; ring) (by intro i; simp) _ e1.1 e1.2 B
  have e3 := claves_bucle (0 + A + B) (fun i => (A : Int) + (B : Int) + (i : Int))
    (fun i => { avion := { ID := (A : Int) + (B : Int) + (i : Int), Categoria := "C",
                           NumPasajeros := 30 + (i : Int) },
                intentos := 0, procesado := false })
    (by intro i; push_cast; ring) (by intro i; simp) _ e2.1 e2.2 C
  have hN : ((A : Int) + (B : Int) + (C : Int)).toNat = 0 + A + B + C := by omega
  unfold construirMapa
  simp only [Int.toNat_ofNat]
  rw [hN]
  exact e3

/-- The final loop counts every entry once, as a success or as a failure. -/
theorem contarResultados_suma :
    ∀ (m : List (Int × EstadoAvion)) (exito fallo : Int),
      (contarResultados m exito fallo).avionesExito
        = exito + ((m.filter fun kv => kv.2.procesado).length : Int) ∧
      (contarResultados m exito fallo).avionesFallo
        = fallo + ((m.filter fun kv => !kv.2.procesado).length : Int) ∧
      (contarResultados m exito fallo).avionesExito + (contarResultados m exito fallo).avionesFallo
        = exito + fallo + (m.length : Int) := by
  intro m
  induction m with
  | nil => intro e f; simp [contarResultados]
  | cons kv r ih =>
    intro e f
    obtain ⟨k, v⟩ := kv
    unfold contarResultados
    by_cases hv : v.procesado = true
    · obtain ⟨h1, h2, h3⟩ := ih (e + 1) f
      simp only [hv, if_true, List.filter_cons, Bool.not_true, List.length_cons]
      refine ⟨?_, ?_, ?_⟩
      · rw [h1]; push_cast; ring
      · rw [h2]; simp
      · rw [h3]; push_cast; ring
    · have hv2 : v.procesado = false := by simpa using hv
      obtain ⟨h1, h2, h3⟩ := ih e (f + 1)
      simp only [hv2, Bool.false_eq_true, if_false, List.filter_cons, Bool.not_false, if_true,
        List.length_cons]
      refine ⟨?_, ?_, ?_⟩
      · rw [h1]
      · rw [h2]; push_cast; ring
      · rw [h3]; push_cast; ring

/-! ## Steps of the harness -/

/-- A property that every transition of the harness preserves holds at the
end of every schedule that starts where it holds. -/
theorem prueba_induccion (P : Prueba → Prop)
    (hpaso : ∀ e p p1, P p → pasoPrueba e p = some p1 → P p1) :
    ∀ (es : List EventoPrueba) (p p1 : Prueba), P p → ejecutarPruebaCon es p = some p1 → P p1 := by
  intro es
  induction es with
  | nil =>
    intro p p1 hp h
    simp [ejecutarPruebaCon] at h
    exact h ▸ hp
  | cons e es ih =>
    intro p p1 hp h
    unfold ejecutarPruebaCon at h
    cases hs : pasoPrueba e p with
    | none => rw [hs] at h; cases h
    | some p2 =>
      rw [hs] at h
      exact ih p2 p1 (hpaso e p p2 hp hs) h

/-- What one atomic step of `procesarAvion` does to the plane it carries: the
invocation keeps its argument; the channel is left alone or receives that
plane, and then the invocation stops carrying it; an invocation never starts
carrying a plane again. -/
theorem pasoAvion_canal (g g1 : Global) (h h1 : Hilo) (hp : pasoAvion g h = some (g1, h1)) :
    h1.avion = h.avion ∧
    ((g1.canal = g.canal ∧ (tieneFicha h1 = true → tieneFicha h = true)) ∨
     (g1.canal = g.canal ++ [h.avion] ∧ tieneFicha h = true ∧ tieneFicha h1 = false)) := by
  obtain ⟨av, pc, inc, dec⟩ := h
  unfold pasoAvion at hp
  cases pc with
  | entrar =>
    simp only at hp
    split at hp <;> cases hp <;> exact ⟨rfl, Or.inl ⟨rfl, fun _ => rfl⟩⟩
  | reencolarCongestion =>
    cases hp
    refine ⟨rfl, ?_⟩
    simp only [enviarSinBloqueo]
    split
    · exact Or.inr ⟨rfl, rfl, rfl⟩
    · exact Or.inl ⟨rfl, fun _ => rfl⟩
  | leerEstado =>
    simp only at hp
    split at hp <;> cases hp <;> exact ⟨rfl, Or.inl ⟨rfl, fun _ => rfl⟩⟩
  | salirDenegado => cases hp; exact ⟨rfl, Or.inl ⟨rfl, fun _ => rfl⟩⟩
  | reencolarDenegado =>
    cases hp
    refine ⟨rfl, ?_⟩
    simp only [enviarSinBloqueo]
    split
    · exact Or.inr ⟨rfl, rfl, rfl⟩
    · exact Or.inl ⟨rfl, fun _ => rfl⟩
  | buscarPista i =>
    simp only at hp
    split at hp
    · cases hp; exact ⟨rfl, Or.inl ⟨rfl, fun _ => rfl⟩⟩
    · split at hp <;> cases hp <;> exact ⟨rfl, Or.inl ⟨rfl, fun _ => rfl⟩⟩
  | liberarPista i =>
    simp only at hp
    split at hp
    · cases hp
    · cases hp; exact ⟨rfl, Or.inl ⟨rfl, fun _ => rfl⟩⟩
  | reencolarSinPista =>
    simp only at hp
    split at hp
    · cases hp; exact ⟨rfl, Or.inr ⟨rfl, rfl, rfl⟩⟩
    · cases hp
  | salirFinal c => cases hp; exact ⟨rfl, Or.inl ⟨rfl, fun hh => by cases hh⟩⟩
  | terminado c => cases hp

/-- An invocation that has returned takes no further step. -/
theorem pasoAvion_terminado (g : Global) (h : Hilo) (c : Camino) (hc : h.pc = PC.terminado c) :
    pasoAvion g h = none := by
  unfold pasoAvion
  rw [hc]

/-- The transitions of the harness, sorted by what they change: a send of
line 139, a dequeue of line 81, a step of a goroutine of lines 83-114 (its
registration, its drop, its call of `procesarAvion`, the reception of `done`
or the timeout), a step of an invocation of `procesarAvion`, or a line of the
feed. -/
theorem pasoPrueba_casos (K : List Int) (e : EventoPrueba) (p p1 : Prueba)
    (hb : InvBase K p) (hp : pasoPrueba e p = some p1) :
    (∃ k a, p.porEnviar[k]? = some a ∧
      p1 = { p with g := { p.g with canal := p.g.canal ++ [a] },
                    porEnviar := p.porEnviar.eraseIdx k }) ∨
    (∃ a resto, p.g.canal = a :: resto ∧
      p1 = { p with g := { p.g with canal := resto },
                    trabajadores := p.trabajadores ++
                      [{ avion := a, pc := PCTrabajador.registrar, hilo := none }] }) ∨
    (∃ i w w1, p.trabajadores[i]? = some w ∧ p1.g = p.g ∧ p1.porEnviar = p.porEnviar ∧
      p1.trabajadores = p.trabajadores.set i w1 ∧ w1.avion = w.avion ∧
      ((w.pc = PCTrabajador.registrar ∧ w1.pc = PCTrabajador.verificar ∧ w.hilo = none ∧
          w1.hilo = none ∧
          p1.mapa = modificarMapa (fun ea => { ea with intentos := ea.intentos + 1 })
            p.mapa w.avion.ID) ∨
       (w.pc = PCTrabajador.verificar ∧ w1.pc = PCTrabajador.descartado ∧ w.hilo = none ∧
          w1.hilo = none ∧ p1.mapa = p.mapa ∧ intentosDe p.mapa w.avion.ID > maxReintentos) ∨
       (w.pc = PCTrabajador.verificar ∧ w1.pc = PCTrabajador.esperando ∧ w.hilo = none ∧
          w1.hilo = some (nuevoHilo w.avion) ∧ p1.mapa = p.mapa ∧
          intentosDe p.mapa w.avion.ID ≤ maxReintentos) ∨
       (w.pc = PCTrabajador.esperando ∧ w1.pc = PCTrabajador.hecho ∧ w1.hilo = w.hilo ∧
          (∃ h c, w.hilo = some h ∧ h.avion = w.avion ∧ h.pc = PC.terminado c) ∧
          p1.mapa = modificarMapa (fun ea => { ea with procesado := true }) p.mapa w.avion.ID) ∨
       (w.pc = PCTrabajador.esperando ∧ w1.pc = PCTrabajador.vencido ∧ w1.hilo = w.hilo ∧
          (∃ h, w.hilo = some h ∧ h.avion = w.avion) ∧ p1.mapa = p.mapa))) ∨
    (∃ i w h g1 h1, p.trabajadores[i]? = some w ∧ w.hilo = some h ∧
      pasoAvion p.g h = some (g1, h1) ∧
      p1 = { p with g := g1,
                    trabajadores := p.trabajadores.set i { w with hilo := some h1 } }) ∨
    (p1.mapa = p.mapa ∧ p1.porEnviar = p.porEnviar ∧ p1.trabajadores = p.trabajadores ∧
      p1.g.canal = p.g.canal) := by
  obtain ⟨hK, _, _, hW⟩ := hb
  cases e with
  | enviar k =>
    simp only [pasoPrueba] at hp
    cases hk : p.porEnviar[k]? with
    | none => rw [hk] at hp; cases hp
    | some a =>
      rw [hk] at hp
      simp only at hp
      split at hp
      · simp only [Option.some.injEq] at hp
        exact Or.inl ⟨k, a, hk, hp.symm⟩
      · cases hp
  | recibir =>
    simp only [pasoPrueba] at hp
    cases hc : p.g.canal with
    | nil => rw [hc] at hp; cases hp
    | cons a resto =>
      rw [hc] at hp
      simp only [Option.some.injEq] at hp
      exact Or.inr (Or.inl ⟨a, resto, rfl, hp.symm⟩)
  | trabajador i =>
    simp only [pasoPrueba] at hp
    cases hi : p.trabajadores[i]? with
    | none => rw [hi] at hp; cases hp
    | some w =>
      rw [hi] at hp
      simp only at hp
      have hmem : w ∈ p.trabajadores := List.getElem?_mem hi
      obtain ⟨hwK, hwE⟩ := hW w hmem
      cases hpt : pasoTrabajador p.mapa w with
      | none => rw [hpt] at hp; cases hp
      | some r =>
        obtain ⟨mapa1, w1⟩ := r
        rw [hpt] at hp
        simp only [Option.some.injEq] at hp
        subst hp
        refine Or.inr (Or.inr (Or.inl ⟨i, w, w1, hi, rfl, rfl, rfl, ?_⟩))
        obtain ⟨av, pc, hl⟩ := w
        unfold pasoTrabajador at hpt
        cases pc with
        | registrar =>
          simp only [estructuraOk] at hwE
          simp only at hwK
          rw [← hK] at hwK
          obtain ⟨ea, hea⟩ := buscarMapa_de_clave p.mapa av.ID hwK
          simp only [hea, Option.some.injEq, Prod.mk.injEq] at hpt
          obtain ⟨hm, hw1⟩ := hpt
          subst hw1
          exact ⟨rfl, Or.inl ⟨rfl, rfl, hwE, hwE, hm.symm⟩⟩
        | verificar =>
          simp only [estructuraOk] at hwE
          simp only at hpt
          cases hb2 : buscarMapa p.mapa av.ID with
          | none => rw [hb2] at hpt; cases hpt
          | some ea =>
            rw [hb2] at hpt
            simp only at hpt
            split at hpt
            · rename_i hgt
              simp only [Option.some.injEq, Prod.mk.injEq] at hpt
              obtain ⟨hm, hw1⟩ := hpt
              subst hw1
              refine ⟨rfl, Or.inr (Or.inl ⟨rfl, rfl, hwE, hwE, hm.symm, ?_⟩)⟩
              simp only [intentosDe, hb2]
              exact hgt
            · rename_i hgt
              simp only [Option.some.injEq, Prod.mk.injEq] at hpt
              obtain ⟨hm, hw1⟩ := hpt
              subst hw1
              refine ⟨rfl, Or.inr (Or.inr (Or.inl ⟨rfl, rfl, hwE, rfl, hm.symm, ?_⟩))⟩
              simp only [intentosDe, hb2]
              simpa using hgt
        | esperando =>
          simp only [estructuraOk] at hwE
          obtain ⟨h, hh, hav⟩ := hwE
          subst hh
          simp only at hpt
          cases hpc : h.pc with
          | terminado c =>
            rw [hpc] at hpt
            simp only [Option.some.injEq, Prod.mk.injEq] at hpt
            obtain ⟨hm, hw1⟩ := hpt
            subst hw1
            exact ⟨rfl, Or.inr (Or.inr (Or.inr (Or.inl ⟨rfl, rfl, rfl, ⟨h, c, rfl, hav, hpc⟩,
              hm.symm⟩)))⟩
          | entrar => rw [hpc] at hpt; cases hpt
          | reencolarCongestion => rw [hpc] at hpt; cases hpt
          | leerEstado => rw [hpc] at hpt; cases hpt
          | salirDenegado => rw [hpc] at hpt; cases hpt
          | reencolarDenegado => rw [hpc] at hpt; cases hpt
          | buscarPista j => rw [hpc] at hpt; cases hpt
          | liberarPista j => rw [hpc] at hpt; cases hpt
          | reencolarSinPista => rw [hpc] at hpt; cases hpt
          | salirFinal c => rw [hpc] at hpt; cases hpt
        | descartado => cases hpt
        | hecho => cases hpt
        | vencido => cases hpt
  | vencer i =>
    simp only [pasoPrueba] at hp
    cases hi : p.trabajadores[i]? with
    | none => rw [hi] at hp; cases hp
    | some w =>
      rw [hi] at hp
      simp only at hp
      have hmem : w ∈ p.trabajadores := List.getElem?_mem hi
      obtain ⟨hwK, hwE⟩ := hW w hmem
      split at hp
      · rename_i hpc
        simp only [Option.some.injEq] at hp
        subst hp
        refine Or.inr (Or.inr (Or.inl ⟨i, w, { w with pc := PCTrabajador.vencido }, hi, rfl, rfl,
          rfl, rfl, ?_⟩))
        refine Or.inr (Or.inr (Or.inr (Or.inr ⟨hpc, rfl, rfl, ?_, rfl⟩)))
        obtain ⟨av, pc, hl⟩ := w
        simp only at hpc
        subst hpc
        simpa [estructuraOk] using hwE
      · cases hp
  | hilo i =>
    simp only [pasoPrueba] at hp
    cases hi : p.trabajadores[i]? with
    | none => rw [hi] at hp; cases hp
    | some w =>
      rw [hi] at hp
      simp only at hp
      cases hh : w.hilo with
      | none => rw [hh] at hp; cases hp
      | some h =>
        rw [hh] at hp
        simp only at hp
        cases hpa : pasoAvion p.g h with
        | none => rw [hpa] at hp; cases hp
        | some r =>
          obtain ⟨g1, h1⟩ := r
          rw [hpa] at hp
          simp only [Option.some.injEq] at hp
          exact Or.inr (Or.inr (Or.inr (Or.inl ⟨i, w, h, g1, h1, hi, hh, hpa, hp.symm⟩)))
  | mensaje m =>
    simp only [pasoPrueba] at hp
    split at hp
    · simp only [Option.some.injEq] at hp
      subst hp
      exact Or.inr (Or.inr (Or.inr (Or.inr ⟨rfl, rfl, rfl,
        (procesarMensajeServidor_conserva _ p.g).2.2.2⟩)))
    · simp only [Option.some.injEq] at hp
      subst hp
      exact Or.inr (Or.inr (Or.inr (Or.inr ⟨rfl, rfl, rfl, rfl⟩)))

/-- Every transition keeps the keys of the map and keeps every plane of the
run among them. -/
theorem invBase_paso (K : List Int) (e : EventoPrueba) (p p1 : Prueba)
    (hb : InvBase K p) (hp : pasoPrueba e p = some p1) : InvBase K p1 := by
  have hcasos := pasoPrueba_casos K e p p1 hb hp
  obtain ⟨hK, hE, hC, hW⟩ := hb
  rcases hcasos with ⟨k, a, hk, rfl⟩ | ⟨a, resto, hc, rfl⟩ |
      ⟨i, w, w1, hi, hg, hpe, htr, hav, hsub⟩ | ⟨i, w, h, g1, h1, hi, hh, hpa, rfl⟩ |
      ⟨hm, hpe, htr, hca⟩
  · refine ⟨hK, ?_, ?_, hW⟩
    · intro b hb2
      exact hE b ((List.eraseIdx_sublist _ _).subset hb2)
    · intro b hb2
      simp only [List.mem_append, List.mem_singleton] at hb2
      rcases hb2 with hb2 | rfl
      · exact hC b hb2
      · exact hE b (List.getElem?_mem hk)
  · refine ⟨hK, hE, ?_, ?_⟩
    · intro b hb2
      exact hC b (by simp only [hc]; exact List.mem_cons_of_mem _ hb2)
    · intro w hw
      simp only [List.mem_append, List.mem_singleton] at hw
      rcases hw with hw | rfl
      · exact hW w hw
      · exact ⟨hC a (by simp [hc]), by simp [estructuraOk]⟩
  · have hmem : w ∈ p.trabajadores := List.getElem?_mem hi
    obtain ⟨hwK, hwE⟩ := hW w hmem
    have hmapa : claves p1.mapa = K := by
      rcases hsub with ⟨_, _, _, _, hm⟩ | ⟨_, _, _, _, hm, _⟩ | ⟨_, _, _, _, hm, _⟩ |
          ⟨_, _, _, _, hm⟩ | ⟨_, _, _, _, hm⟩
      · rw [hm, claves_modificarMapa]; exact hK
      · rw [hm]; exact hK
      · rw [hm]; exact hK
      · rw [hm, claves_modificarMapa]; exact hK
      · rw [hm]; exact hK
    refine ⟨hmapa, by rw [hpe]; exact hE, by rw [hg]; exact hC, ?_⟩
    intro x hx
    rw [htr] at hx
    rcases List.mem_or_eq_of_mem_set hx with hx | rfl
    · exact hW x hx
    · refine ⟨by rw [hav]; exact hwK, ?_⟩
      obtain ⟨av1, pc1, hl1⟩ := x
      simp only at hav
      rcases hsub with ⟨_, h1, _, h2, _⟩ | ⟨_, h1, _, h2, _⟩ | ⟨_, h1, _, h2, _⟩ |
          ⟨_, h1, h2, h3, _⟩ | ⟨_, h1, h2, h3, _⟩
      · simp only at h1 h2; subst h1; simpa [estructuraOk] using h2
      · simp only at h1 h2; subst h1; simpa [estructuraOk] using h2
      · simp only at h1 h2; subst h1; subst h2; simp [estructuraOk, nuevoHilo, hav]
      · simp only at h1 h2; subst h1; subst h2
        obtain ⟨h, c, e1, e2, e3⟩ := h3
        exact ⟨h, c, e1, by rw [e2, hav], e3⟩
      · simp only at h1 h2; subst h1; subst h2
        obtain ⟨h, e1, e2⟩ := h3
        exact ⟨h, e1, by rw [e2, hav]⟩
  · have hmem : w ∈ p.trabajadores := List.getElem?_mem hi
    obtain ⟨hwK, hwE⟩ := hW w hmem
    obtain ⟨hav, hcanal⟩ := pasoAvion_canal p.g g1 h h1 hpa
    have hhw : h.avion = w.avion := by
      obtain ⟨av, pc, hl⟩ := w
      simp only at hh
      subst hh
      cases pc <;> simp only [estructuraOk] at hwE
      · cases hwE
      · cases hwE
      · obtain ⟨h2, e1, e2⟩ := hwE
        cases e1; exact e2
      · cases hwE
      · obtain ⟨h2, c, e1, e2, _⟩ := hwE
        cases e1; exact e2
      · obtain ⟨h2, e1, e2⟩ := hwE
        cases e1; exact e2
    refine ⟨hK, hE, ?_, ?_⟩
    · intro b hb2
      have hb3 : b ∈ g1.canal := hb2
      rcases hcanal with ⟨hc, _⟩ | ⟨hc, _, _⟩
      · rw [hc] at hb3; exact hC b hb3
      · rw [hc] at hb3
        simp only [List.mem_append, List.mem_singleton] at hb3
        rcases hb3 with hb3 | rfl
        · exact hC b hb3
        · rw [hhw]; exact hwK
    · intro x hx
      rcases List.mem_or_eq_of_mem_set hx with hx | rfl
      · exact hW x hx
      · refine ⟨hwK, ?_⟩
        obtain ⟨av, pc, hl⟩ := w
        simp only at hh hhw
        subst hh
        cases pc <;> simp only [estructuraOk] at hwE ⊢
        · cases hwE
        · cases hwE
        · exact ⟨h1, rfl, by rw [hav, hhw]⟩
        · cases hwE
        · obtain ⟨h2, c, e1, _, e3⟩ := hwE
          cases e1
          rw [pasoAvion_terminado p.g h c e3] at hpa
          cases hpa
        · exact ⟨h1, rfl, by rw [hav, hhw]⟩
  · exact ⟨by rw [hm]; exact hK, by rw [hpe]; exact hE, by rw [hca]; exact hC,
      by rw [htr]; exact hW⟩

/-- The state after line 136 satisfies the base invariant for the keys of
the map just built. -/
theorem invBase_inicial (pistas0 : List Pista) (capacidad0 : Int) (inicial0 : Bool)
    (numA numB numC : Int) (hA : 0 ≤ numA) (hB : 0 ≤ numB) (hC : 0 ≤ numC) :
    InvBase (claves (construirMapa numA numB numC))
      (pruebaInicial pistas0 capacidad0 inicial0 numA numB numC) := by
  obtain ⟨_, hv⟩ := construirMapa_claves numA numB numC hA hB hC
  refine ⟨rfl, ?_, ?_, ?_⟩
  · intro a ha
    simp only [pruebaInicial, List.mem_map] at ha
    obtain ⟨kv, hkv, rfl⟩ := ha
    rw [(hv kv hkv).2.2]
    simp only [claves, List.mem_map]
    exact ⟨kv, hkv, rfl⟩
  · intro a ha
    simp [pruebaInicial] at ha
  · intro w hw
    simp [pruebaInicial] at hw

/-- The accounting of `ejecutarPrueba` in any state of a run of a batch of
non-negative sizes: the map has one entry per submitted identifier and the
two counts split these entries. -/
theorem contabilidad_invariante (pistas0 : List Pista) (capacidad0 : Int) (inicial0 : Bool)
    (numA numB numC : Int) (hA : 0 ≤ numA) (hB : 0 ≤ numB) (hC : 0 ≤ numC)
    (es : List EventoPrueba) (p : Prueba)
    (hp : ejecutarPruebaCon es (pruebaInicial pistas0 capacidad0 inicial0 numA numB numC)
      = some p) :
    (resultadoPrueba p).avionesExito + (resultadoPrueba p).avionesFallo = numA + numB + numC ∧
    0 ≤ (resultadoPrueba p).avionesExito ∧ 0 ≤ (resultadoPrueba p).avionesFallo ∧
    claves p.mapa
      = (List.range (numA + numB + numC).toNat).map (fun (i : Nat) => (i : Int)) ∧
    (claves p.mapa).Nodup ∧
    (resultadoPrueba p).avionesExito
      = ((p.mapa.filter fun kv => kv.2.procesado).length : Int) ∧
    (resultadoPrueba p).avionesFallo
      = ((p.mapa.filter fun kv => !kv.2.procesado).length : Int) := by
  have hinv := prueba_induccion (InvBase (claves (construirMapa numA numB numC)))
    (invBase_paso _) es _ p (invBase_inicial pistas0 capacidad0 inicial0 numA numB numC hA hB hC) hp
  obtain ⟨hK, _⟩ := hinv
  obtain ⟨hk0, _⟩ := construirMapa_claves numA numB numC hA hB hC
  obtain ⟨h1, h2, h3⟩ := contarResultados_suma p.mapa 0 0
  have hlen : (p.mapa.length : Int) = numA + numB + numC := by
    have : p.mapa.length = (claves p.mapa).length := by simp [claves]
    rw [this, hK, hk0]
    simp only [List.length_map, List.length_range]
    omega
  have hnd : (claves p.mapa).Nodup := by
    rw [hK, hk0]
    exact List.Nodup.map (fun a b hab => by exact_mod_cast hab) (List.nodup_range _)
  refine ⟨?_, ?_, ?_, by rw [hK, hk0], hnd, ?_, ?_⟩
  · simp only [resultadoPrueba]
    rw [h3, hlen]
    ring
  · simp only [resultadoPrueba]
    rw [h1]
    omega
  · simp only [resultadoPrueba]
    rw [h2]
    omega
  · simp only [resultadoPrueba]
    rw [h1]
    ring
  · simp only [resultadoPrueba]
    rw [h2]
    ring

/-- C8: for non-negative `numA`, `numB`, `numC`, at any moment of a run of
`ejecutarPrueba` (completed or cut by the timeout) the two counts of the
final accounting are non-negative and add up to `numA + numB + numC`: the map
holds each submitted identifier once and each entry is counted once, as a
success or as a failure. -/
theorem contabilidad_total (pistas0 : List Pista) (capacidad0 : Int) (inicial0 : Bool)
    (numA numB numC : Int) (hA : 0 ≤ numA) (hB : 0 ≤ numB) (hC : 0 ≤ numC)
    (es : List EventoPrueba) (p : Prueba)
    (hp : ejecutarPruebaCon es (pruebaInicial pistas0 capacidad0 inicial0 numA numB numC)
      = some p) :
    (resultadoPrueba p).avionesExito + (resultadoPrueba p).avionesFallo = numA + numB + numC ∧
    0 ≤ (resultadoPrueba p).avionesExito ∧ 0 ≤ (resultadoPrueba p).avionesFallo ∧
    claves p.mapa
      = (List.range (numA + numB + numC).toNat).map (fun (i : Nat) => (i : Int)) ∧
    (claves p.mapa).Nodup ∧
    (resultadoPrueba p).avionesExito
      = ((p.mapa.filter fun kv => kv.2.procesado).length : Int) ∧
    (resultadoPrueba p).avionesFallo
      = ((p.mapa.filter fun kv => !kv.2.procesado).length : Int) :=
  contabilidad_invariante pistas0 capacidad0 inicial0 numA numB numC hA hB hC es p hp

/-- The batch of one plane of category A, at the end of the run in which it
is always denied: the two counts add up to 1. -/
theorem contabilidad_total_witness :
    (resultadoPrueba (pruebaTras 1 0 0 trazaSiempreDenegado)).avionesExito
      + (resultadoPrueba (pruebaTras 1 0 0 trazaSiempreDenegado)).avionesFallo = 1 + 0 + 0 ∧
    0 ≤ (resultadoPrueba (pruebaTras 1 0 0 trazaSiempreDenegado)).avionesExito ∧
    0 ≤ (resultadoPrueba (pruebaTras 1 0 0 trazaSiempreDenegado)).avionesFallo :=
  ⟨(contabilidad_total [] 0 true 1 0 0 (by decide) (by decide) (by decide)
      trazaSiempreDenegado (pruebaTras 1 0 0 trazaSiempreDenegado) (by decide)).1,
   (contabilidad_total [] 0 true 1 0 0 (by decide) (by decide) (by decide)
      trazaSiempreDenegado (pruebaTras 1 0 0 trazaSiempreDenegado) (by decide)).2.1,
   (contabilidad_total [] 0 true 1 0 0 (by decide) (by decide) (by decide)
      trazaSiempreDenegado (pruebaTras 1 0 0 trazaSiempreDenegado) (by decide)).2.2.1⟩

/-- The batch of `TestCaso1DistribucionEquilibrada`: the two counts add up to
30 at any moment of the run, not to the 3 that the test expects. -/
theorem caso1_total_treinta (pistas0 : List Pista) (capacidad0 : Int) (inicial0 : Bool)
    (es : List EventoPrueba) (p : Prueba)
    (hp : ejecutarPruebaCon es (pruebaInicial pistas0 capacidad0 inicial0 10 10 10) = some p) :
    (resultadoPrueba p).avionesExito + (resultadoPrueba p).avionesFallo = 30 ∧
    (resultadoPrueba p).avionesExito + (resultadoPrueba p).avionesFallo ≠ 3 := by
  have h := (contabilidad_invariante pistas0 capacidad0 inicial0 10 10 10 (by decide) (by decide)
    (by decide) es p hp).1
  constructor
  · rw [h]; rfl
  · rw [h]; decide

/-! ## The accounting of attempts -/

/-- Removing the element at one position takes its weight off the sum. -/
theorem suma_map_eraseIdx {α : Type} (f : α → Nat) :
    ∀ (l : List α) (k : Nat) (a : α), l[k]? = some a →
      ((l.eraseIdx k).map f).sum + f a = (l.map f).sum := by
  intro l
  induction l with
  | nil => intro k a h; simp at h
  | cons x xs ih =>
    intro k a h
    cases k with
    | zero =>
      simp at h
      subst h
      simp [Nat.add_comm]
    | succ n =>
      simp at h
      have := ih n a h
      simp only [List.eraseIdx_cons_succ, List.map_cons, List.sum_cons]
      omega

/-- A weight that is smaller everywhere has a smaller sum. -/
theorem suma_le_suma {α : Type} (f g : α → Nat) (hfg : ∀ a, f a ≤ g a) :
    ∀ (l : List α), (l.map f).sum ≤ (l.map g).sum := by
  intro l
  induction l with
  | nil => simp
  | cons x xs ih =>
    have := hfg x
    simp only [List.map_cons, List.sum_cons]
    omega

/-- The number of invocations is a sum of weights. -/
theorem invocaciones_eq (p : Prueba) (x : Int) :
    invocaciones p x = (p.trabajadores.map (pesoInvocado x)).sum := rfl

/-- The weight of a plane is 0 or 1. -/
theorem pesoAvion_le (x : Int) (a : Avion) : pesoAvion x a ≤ 1 := by
  unfold pesoAvion
  split <;> omega

/-- The weights of a goroutine are the weight of its plane or 0, depending on
its control point and on its invocation. -/
theorem pesos_trabajador (x : Int) (w : Trabajador) :
    pesoInvocado x w = (if w.hilo.isSome = true then pesoAvion x w.avion else 0) ∧
    pesoPendiente x w = (if w.pc = PCTrabajador.verificar then pesoAvion x w.avion else 0) ∧
    pesoDescartado x w = (if w.pc = PCTrabajador.descartado then pesoAvion x w.avion else 0) ∧
    pesoHecho x w = (if w.pc = PCTrabajador.hecho then pesoAvion x w.avion else 0) ∧
    pesoFicha x w = (if w.pc = PCTrabajador.registrar ∨ w.pc = PCTrabajador.verificar ∨
        w.hilo.map tieneFicha = some true then pesoAvion x w.avion else 0) := by
  unfold pesoInvocado pesoPendiente pesoDescartado pesoHecho pesoFicha pesoAvion
  by_cases hx : w.avion.ID = x
  · simp [hx]
  · simp [hx]

/-- The field `intentos` after the increment of line 92. -/
theorem intentosDe_incremento (m : List (Int × EstadoAvion)) (k x : Int) (hk : k ∈ claves m) :
    intentosDe (modificarMapa (fun ea => { ea with intentos := ea.intentos + 1 }) m k) x
      = intentosDe m x + (if k = x then 1 else 0) := by
  obtain ⟨ea, hea⟩ := buscarMapa_de_clave m k hk
  unfold intentosDe
  rw [buscarMapa_modificarMapa]
  by_cases hx : x = k
  · subst hx
    simp [hea]
  · have hx2 : ¬ k = x := fun h => hx h.symm
    simp [hx, hx2]

/-- The increment of line 92 leaves the field `procesado` alone. -/
theorem procesadoDe_incremento (m : List (Int × EstadoAvion)) (k x : Int) :
    procesadoDe (modificarMapa (fun ea => { ea with intentos := ea.intentos + 1 }) m k) x
      = procesadoDe m x := by
  unfold procesadoDe
  rw [buscarMapa_modificarMapa]
  by_cases hx : x = k
  · subst hx
    cases buscarMapa m x <;> simp
  · simp [hx]

/-- The write of line 109 leaves the field `intentos` alone. -/
theorem intentosDe_marcado (m : List (Int × EstadoAvion)) (k x : Int) :
    intentosDe (modificarMapa (fun ea => { ea with procesado := true }) m k) x
      = intentosDe m x := by
  unfold intentosDe
  rw [buscarMapa_modificarMapa]
  by_cases hx : x = k
  · subst hx
    cases buscarMapa m x <;> simp
  · simp [hx]

/-- The field `procesado` after the write of line 109. -/
theorem procesadoDe_marcado (m : List (Int × EstadoAvion)) (k x : Int) (hk : k ∈ claves m) :
    procesadoDe (modificarMapa (fun ea => { ea with procesado := true }) m k) x
      = (if k = x then true else procesadoDe m x) := by
  obtain ⟨ea, hea⟩ := buscarMapa_de_clave m k hk
  unfold procesadoDe
  rw [buscarMapa_modificarMapa]
  by_cases hx : x = k
  · subst hx
    simp [hea]
  · have hx2 : ¬ k = x := fun h => hx h.symm
    simp [hx, hx2]

/-- Every transition of the harness preserves the accounting of attempts. -/
theorem invCuenta_paso (K : List Int) (e : EventoPrueba) (p p1 : Prueba)
    (hb : InvBase K p) (hc : InvCuenta p) (hp : pasoPrueba e p = some p1) : InvCuenta p1 := by
  have hcasos := pasoPrueba_casos K e p p1 hb hp
  obtain ⟨hK, hE, hC, hW⟩ := hb
  intro x
  obtain ⟨hJ, hT, hKK, hL, hH⟩ := hc x
  simp only [fichas, descartes, hechos, invocaciones_eq] at hJ hT hKK hL hH ⊢
  rcases hcasos with ⟨k, a, hk, rfl⟩ | ⟨a, resto, hca, rfl⟩ |
      ⟨i, w, w1, hi, hg, hpe, htr, hav, hsub⟩ | ⟨i, w, h, g1, h1, hi, hh, hpa, rfl⟩ |
      ⟨hm, hpe, htr, hca⟩
  · -- line 139: the plane moves from the loop to the channel
    have h1 := suma_map_eraseIdx (pesoAvion x) p.porEnviar k a hk
    have h2 : ((p.g.canal ++ [a]).map (pesoAvion x)).sum
        = (p.g.canal.map (pesoAvion x)).sum + pesoAvion x a := by simp
    simp only []
    rw [h2]
    refine ⟨hJ, by omega, ?_, hL, hH⟩
    intro hd
    have := hKK hd
    omega
  · -- line 81: the plane moves from the channel to a new goroutine
    have h1 : (p.g.canal.map (pesoAvion x)).sum
        = pesoAvion x a + (resto.map (pesoAvion x)).sum := by rw [hca]; simp
    obtain ⟨e1, e2, e3, e4, e5⟩ := pesos_trabajador x
      { avion := a, pc := PCTrabajador.registrar, hilo := none }
    simp only [Option.isSome_none, Bool.false_eq_true, if_false, reduceCtorEq, true_or,
      if_true] at e1 e2 e3 e4 e5
    simp only [List.map_append, List.map_cons, List.map_nil, List.sum_append, List.sum_cons,
      List.sum_nil, e1, e2, e3, e4, e5, Nat.add_zero]
    refine ⟨hJ, by omega, ?_, hL, hH⟩
    intro hd
    have := hKK hd
    omega
  · -- a step of a goroutine of lines 83-114
    have hmem : w ∈ p.trabajadores := List.getElem?_mem hi
    obtain ⟨hwK, hwE⟩ := hW w hmem
    have sI := suma_map_set (pesoInvocado x) p.trabajadores i w w1 hi
    have sP := suma_map_set (pesoPendiente x) p.trabajadores i w w1 hi
    have sD := suma_map_set (pesoDescartado x) p.trabajadores i w w1 hi
    have sH := suma_map_set (pesoHecho x) p.trabajadores i w w1 hi
    have sF := suma_map_set (pesoFicha x) p.trabajadores i w w1 hi
    have lP := peso_le_suma (pesoPendiente x) p.trabajadores i w hi
    have lF := peso_le_suma (pesoFicha x) p.trabajadores i w hi
    have lPF := suma_le_suma (pesoPendiente x) (pesoFicha x) (by
      intro t
      obtain ⟨_, t2, _, _, t5⟩ := pesos_trabajador x t
      rw [t2, t5]
      by_cases ht : t.pc = PCTrabajador.verificar
      · simp [ht]
      · simp [ht]) p.trabajadores
    obtain ⟨a1, a2, a3, a4, a5⟩ := pesos_trabajador x w
    obtain ⟨b1, b2, b3, b4, b5⟩ := pesos_trabajador x w1
    have hn := pesoAvion_le x w.avion
    rw [hav] at b1 b2 b3 b4 b5
    rw [htr, hg, hpe]
    rw [a1, b1] at sI
    rw [a2, b2] at sP
    rw [a3, b3] at sD
    rw [a4, b4] at sH
    rw [a5, b5] at sF
    rw [a2] at lP
    rw [a5] at lF
    rcases hsub with ⟨c1, c2, c3, c4, hm⟩ | ⟨c1, c2, c3, c4, hm, hN⟩ | ⟨c1, c2, c3, c4, hm, hN⟩ |
        ⟨c1, c2, c3, ⟨h, c, c4, c5, c6⟩, hm⟩ | ⟨c1, c2, c3, ⟨h, c4, c5⟩, hm⟩
    · -- lines 86-93
      simp only [c1, c2, c3, c4, Option.isSome_none, Bool.false_eq_true, if_false, reduceCtorEq,
        true_or, or_true, if_true, Option.map_none'] at sI sP sD sH sF lP lF
      have hN := intentosDe_incremento p.mapa w.avion.ID x (by rw [hK]; exact hwK)
      have hB := procesadoDe_incremento p.mapa w.avion.ID x
      rw [hm, hN, hB]
      have hpa : (pesoAvion x w.avion : Int) = (if w.avion.ID = x then 1 else 0) := by
        unfold pesoAvion
        split <;> simp
      refine ⟨by omega, by omega, ?_, by omega, ?_⟩
      · intro hd
        have := hKK (by omega)
        omega
      · rw [hH]
        have : (p.trabajadores.set i w1 |>.map (pesoHecho x)).sum
            = (p.trabajadores.map (pesoHecho x)).sum := by omega
        rw [this]
    · -- line 95, the attempts exceed `maxReintentos`
      simp only [c1, c2, c3, c4, Option.isSome_none, Bool.false_eq_true, if_false, reduceCtorEq,
        true_or, or_true, or_false, false_or, if_true, Option.map_none'] at sI sP sD sH sF lP lF
      rw [hm]
      have hNx : pesoAvion x w.avion = 1 → intentosDe p.mapa x > 5 := by
        intro h1
        have : w.avion.ID = x := by
          unfold pesoAvion at h1
          by_contra hne
          simp [hne] at h1
        rw [← this]
        exact hN
      refine ⟨by omega, by omega, ?_, by omega, ?_⟩
      · intro hd
        by_cases hcero : pesoAvion x w.avion = 0
        · have := hKK (by omega)
          omega
        · have h1 : pesoAvion x w.avion = 1 := by omega
          have h5 := hNx h1
          have hd0 : ¬ 1 ≤ (p.trabajadores.map (pesoDescartado x)).sum := by
            intro hdd
            have := hKK hdd
            omega
          omega
      · rw [hH]
        have : (p.trabajadores.set i w1 |>.map (pesoHecho x)).sum
            = (p.trabajadores.map (pesoHecho x)).sum := by omega
        rw [this]
    · -- line 95, the attempts are within `maxReintentos`, and line 102
      have htf : tieneFicha (nuevoHilo w.avion) = true := rfl
      simp only [c1, c2, c3, c4, Option.isSome_none, Option.isSome_some, Bool.false_eq_true,
        if_false, reduceCtorEq, true_or, or_true, or_false, false_or, if_true, Option.map_none',
        Option.map_some', htf] at sI sP sD sH sF lP lF
      rw [hm]
      have hNx : pesoAvion x w.avion = 1 → intentosDe p.mapa x ≤ 5 := by
        intro h1
        have : w.avion.ID = x := by
          unfold pesoAvion at h1
          by_contra hne
          simp [hne] at h1
        rw [← this]
        exact hN
      refine ⟨by omega, by omega, ?_, ?_, ?_⟩
      · intro hd
        have := hKK (by omega)
        omega
      · by_cases hcero : pesoAvion x w.avion = 0
        · omega
        · have h1 : pesoAvion x w.avion = 1 := by omega
          have h5 := hNx h1
          omega
      · rw [hH]
        have : (p.trabajadores.set i w1 |>.map (pesoHecho x)).sum
            = (p.trabajadores.map (pesoHecho x)).sum := by omega
        rw [this]
    · -- lines 107-110, the reception of `done`
      have htf : tieneFicha h = false := by
        unfold tieneFicha
        rw [c6]
      simp only [c1, c2, c3, c4, Option.isSome_some, Bool.false_eq_true,
        if_false, reduceCtorEq, true_or, or_true, or_false, false_or, if_true,
        Option.map_some', htf, Option.some.injEq] at sI sP sD sH sF lP lF
      have hN := intentosDe_marcado p.mapa w.avion.ID x
      have hB := procesadoDe_marcado p.mapa w.avion.ID x (by rw [hK]; exact hwK)
      rw [hm, hN, hB]
      refine ⟨by omega, by omega, ?_, by omega, ?_⟩
      · intro hd
        have := hKK (by omega)
        omega
      · by_cases hx : w.avion.ID = x
        · have h1 : pesoAvion x w.avion = 1 := by simp [pesoAvion, hx]
          simp only [hx, if_true, true_iff]
          omega
        · have h0 : pesoAvion x w.avion = 0 := by simp [pesoAvion, hx]
          simp only [hx, if_false]
          rw [hH]
          have : (p.trabajadores.set i w1 |>.map (pesoHecho x)).sum
              = (p.trabajadores.map (pesoHecho x)).sum := by omega
          rw [this]
    · -- line 111, the timeout
      simp only [c1, c2, c3, c4, Option.isSome_some, Bool.false_eq_true,
        if_false, reduceCtorEq, true_or, or_true, or_false, false_or, if_true,
        Option.map_some', Option.some.injEq] at sI sP sD sH sF lP lF
      rw [hm]
      refine ⟨by omega, by omega, ?_, by omega, ?_⟩
      · intro hd
        have := hKK (by omega)
        omega
      · rw [hH]
        have : (p.trabajadores.set i w1 |>.map (pesoHecho x)).sum
            = (p.trabajadores.map (pesoHecho x)).sum := by omega
        rw [this]
  · -- a step of an invocation of `procesarAvion`
    have hmem : w ∈ p.trabajadores := List.getElem?_mem hi
    obtain ⟨hwK, hwE⟩ := hW w hmem
    obtain ⟨hav, hcanal⟩ := pasoAvion_canal p.g g1 h h1 hpa
    have hpcs : w.pc ≠ PCTrabajador.registrar ∧ w.pc ≠ PCTrabajador.verificar ∧
        h.avion = w.avion := by
      obtain ⟨av, pc, hl⟩ := w
      simp only at hh
      subst hh
      cases pc <;> simp only [estructuraOk] at hwE
      · cases hwE
      · cases hwE
      · obtain ⟨h2, e1, e2⟩ := hwE
        cases e1; exact ⟨by simp, by simp, e2⟩
      · cases hwE
      · obtain ⟨h2, c, e1, e2, _⟩ := hwE
        cases e1; exact ⟨by simp, by simp, e2⟩
      · obtain ⟨h2, e1, e2⟩ := hwE
        cases e1; exact ⟨by simp, by simp, e2⟩
    obtain ⟨hp1, hp2, hp3⟩ := hpcs
    have sI := suma_map_set (pesoInvocado x) p.trabajadores i w { w with hilo := some h1 } hi
    have sP := suma_map_set (pesoPendiente x) p.trabajadores i w { w with hilo := some h1 } hi
    have sD := suma_map_set (pesoDescartado x) p.trabajadores i w { w with hilo := some h1 } hi
    have sH := suma_map_set (pesoHecho x) p.trabajadores i w { w with hilo := some h1 } hi
    have sF := suma_map_set (pesoFicha x) p.trabajadores i w { w with hilo := some h1 } hi
    obtain ⟨a1, a2, a3, a4, a5⟩ := pesos_trabajador x w
    obtain ⟨b1, b2, b3, b4, b5⟩ := pesos_trabajador x { w with hilo := some h1 }
    have hn := pesoAvion_le x w.avion
    rw [a1, b1] at sI
    rw [a2, b2] at sP
    rw [a3, b3] at sD
    rw [a4, b4] at sH
    rw [a5, b5] at sF
    simp only [hh, hp1, hp2, Option.isSome_some, if_true, false_or, Option.map_some',
      Option.some.injEq] at sI sP sD sH sF
    have hHsame : (p.trabajadores.set i { w with hilo := some h1 } |>.map (pesoHecho x)).sum
        = (p.trabajadores.map (pesoHecho x)).sum := by omega
    show intentosDe p.mapa x = _ ∧ _ ∧ _ ∧ _ ∧ (procesadoDe p.mapa x = true ↔ _)
    simp only []
    rw [hHsame]
    rcases hcanal with ⟨hc, htok⟩ | ⟨hc, htok, htok1⟩
    · rw [hc]
      have hle : (if tieneFicha h1 = true then pesoAvion x w.avion else 0)
          ≤ (if tieneFicha h = true then pesoAvion x w.avion else 0) := by
        by_cases t1 : tieneFicha h1 = true
        · simp [t1, htok t1]
        · simp [t1]
      refine ⟨by omega, by omega, ?_, by omega, hH⟩
      intro hd
      have := hKK (by omega)
      omega
    · rw [hc]
      simp only [htok, htok1, if_true, Bool.false_eq_true, if_false] at sF
      have h2 : ((p.g.canal ++ [h.avion]).map (pesoAvion x)).sum
          = (p.g.canal.map (pesoAvion x)).sum + pesoAvion x w.avion := by
        rw [hp3]; simp
      rw [h2]
      refine ⟨by omega, by omega, ?_, by omega, hH⟩
      intro hd
      have := hKK (by omega)
      omega
  · -- a line of the feed
    rw [hm, hpe, htr, hca]
    exact ⟨hJ, hT, hKK, hL, hH⟩

/-- The weight of a plane in a list is the number of times its identifier
occurs there. -/
theorem suma_pesoAvion_count (x : Int) :
    ∀ (l : List Avion), (l.map (pesoAvion x)).sum = (l.map fun a => a.ID).count x := by
  intro l
  induction l with
  | nil => rfl
  | cons a r ih =>
    simp only [List.map_cons, List.sum_cons, List.count_cons, ih, pesoAvion]
    by_cases h : a.ID = x
    · simp [h, Nat.add_comm]
    · simp [h]

/-- The accounting of attempts holds after line 136, for a batch of
non-negative sizes. -/
theorem invCuenta_inicial (pistas0 : List Pista) (capacidad0 : Int) (inicial0 : Bool)
    (numA numB numC : Int) (hA : 0 ≤ numA) (hB : 0 ≤ numB) (hC : 0 ≤ numC) :
    InvCuenta (pruebaInicial pistas0 capacidad0 inicial0 numA numB numC) := by
  obtain ⟨hk, hv⟩ := construirMapa_claves numA numB numC hA hB hC
  intro x
  have hids : ((construirMapa numA numB numC).map fun kv => kv.2.avion).map (fun a => a.ID)
      = claves (construirMapa numA numB numC) := by
    rw [List.map_map]
    apply List.map_congr_left
    intro kv hkv
    exact (hv kv hkv).2.2
  have hnd : (claves (construirMapa numA numB numC)).Nodup := by
    rw [hk]
    exact List.Nodup.map (fun a b hab => by exact_mod_cast hab) (List.nodup_range _)
  have hcount : (((construirMapa numA numB numC).map fun kv => kv.2.avion).map
      (pesoAvion x)).sum ≤ 1 := by
    rw [suma_pesoAvion_count, hids]
    exact List.nodup_iff_count_le_one.mp hnd x
  have hint : intentosDe (construirMapa numA numB numC) x = 0 := by
    unfold intentosDe
    cases hb : buscarMapa (construirMapa numA numB numC) x with
    | none => rfl
    | some ea => exact (hv _ (buscarMapa_mem _ _ _ hb)).1
  have hpro : procesadoDe (construirMapa numA numB numC) x = false := by
    unfold procesadoDe
    cases hb : buscarMapa (construirMapa numA numB numC) x with
    | none => rfl
    | some ea => exact (hv _ (buscarMapa_mem _ _ _ hb)).2.1
  simp only [pruebaInicial, fichas, descartes, hechos, invocaciones, List.map_nil, List.sum_nil,
    hint, hpro]
  refine ⟨by simp, by omega, by omega, by omega, by simp⟩

/-! ## The claims about the harness -/

/-- A sum of weights is positive exactly when some element has a positive
weight. -/
theorem suma_positiva_iff {α : Type} (f : α → Nat) :
    ∀ (l : List α), 0 < (l.map f).sum ↔ ∃ a ∈ l, 0 < f a := by
  intro l
  induction l with
  | nil => simp
  | cons x xs ih =>
    simp only [List.map_cons, List.sum_cons, List.mem_cons, exists_eq_or_imp]
    rw [← ih]
    omega

/-- Both invariants of the harness hold at the end of every schedule of a
batch of non-negative sizes. -/
theorem invariantes_prueba (pistas0 : List Pista) (capacidad0 : Int) (inicial0 : Bool)
    (numA numB numC : Int) (hA : 0 ≤ numA) (hB : 0 ≤ numB) (hC : 0 ≤ numC)
    (es : List EventoPrueba) (p : Prueba)
    (hp : ejecutarPruebaCon es (pruebaInicial pistas0 capacidad0 inicial0 numA numB numC)
      = some p) :
    InvBase (claves (construirMapa numA numB numC)) p ∧ InvCuenta p := by
  refine prueba_induccion
    (fun q => InvBase (claves (construirMapa numA numB numC)) q ∧ InvCuenta q) ?_ es _ p
    ⟨invBase_inicial pistas0 capacidad0 inicial0 numA numB numC hA hB hC,
     invCuenta_inicial pistas0 capacidad0 inicial0 numA numB numC hA hB hC⟩ hp
  intro e q q1 hq hstep
  exact ⟨invBase_paso _ e q q1 hq.1 hstep, invCuenta_paso _ e q q1 hq.1 hq.2 hstep⟩

/-- The step of line 95 of a goroutine that has registered its attempt: a
drop that touches neither the shared state nor the map and starts no
invocation when the attempts exceed `maxReintentos`, the call of
`procesarAvion` otherwise. -/
theorem paso_verificar (K : List Int) (p : Prueba) (hb : InvBase K p) (i : Nat)
    (w : Trabajador) (hi : p.trabajadores[i]? = some w) (hpc : w.pc = PCTrabajador.verificar) :
    (intentosDe p.mapa w.avion.ID > maxReintentos →
      pasoPrueba (EventoPrueba.trabajador i) p
        = some { p with trabajadores :=
                   p.trabajadores.set i { w with pc := PCTrabajador.descartado } }) ∧
    (intentosDe p.mapa w.avion.ID ≤ maxReintentos →
      pasoPrueba (EventoPrueba.trabajador i) p
        = some { p with trabajadores :=
                   p.trabajadores.set i { w with pc := PCTrabajador.esperando,
                                                 hilo := some (nuevoHilo w.avion) } }) := by
  obtain ⟨hK, _, _, hW⟩ := hb
  obtain ⟨hwK, _⟩ := hW w (List.getElem?_mem hi)
  rw [← hK] at hwK
  obtain ⟨ea, hea⟩ := buscarMapa_de_clave p.mapa w.avion.ID hwK
  constructor
  · intro hgt
    simp only [intentosDe, hea] at hgt
    simp only [pasoPrueba, hi, pasoTrabajador, hpc, hea, hgt, if_true]
  · intro hle
    simp only [intentosDe, hea] at hle
    have hng : ¬ ea.intentos > maxReintentos := by omega
    simp only [pasoPrueba, hi, pasoTrabajador, hpc, hea, hng, if_false]

/-- C9: at any moment of a run of `ejecutarPrueba` on a batch of non-negative
sizes, `procesarAvion` has been invoked at most `maxReintentos` times for
each plane; a plane that a goroutine has dropped at line 97 has been invoked
exactly `maxReintentos` times, its attempt counter is `maxReintentos + 1`
and it is nowhere in the system any more; the goroutine that drops it has
started no invocation, and its step at line 95 leaves the shared state (the
tower gate included) untouched. -/
theorem reintentos_acotados (pistas0 : List Pista) (capacidad0 : Int) (inicial0 : Bool)
    (numA numB numC : Int) (hA : 0 ≤ numA) (hB : 0 ≤ numB) (hC : 0 ≤ numC)
    (es : List EventoPrueba) (p : Prueba)
    (hp : ejecutarPruebaCon es (pruebaInicial pistas0 capacidad0 inicial0 numA numB numC)
      = some p) (x : Int) :
    (invocaciones p x : Int) ≤ maxReintentos ∧
    ((∃ w ∈ p.trabajadores, w.avion.ID = x ∧ w.pc = PCTrabajador.descartado) →
      (invocaciones p x : Int) = maxReintentos ∧
      intentosDe p.mapa x = maxReintentos + 1 ∧ fichas p x = 0) ∧
    (∀ w ∈ p.trabajadores, w.pc = PCTrabajador.descartado → w.hilo = none) ∧
    (∀ (i : Nat) (w : Trabajador), p.trabajadores[i]? = some w →
      w.pc = PCTrabajador.verificar →
      (intentosDe p.mapa w.avion.ID > maxReintentos →
        pasoPrueba (EventoPrueba.trabajador i) p
          = some { p with trabajadores :=
                     p.trabajadores.set i { w with pc := PCTrabajador.descartado } }) ∧
      (intentosDe p.mapa w.avion.ID ≤ maxReintentos →
        pasoPrueba (EventoPrueba.trabajador i) p
          = some { p with trabajadores :=
                     p.trabajadores.set i { w with pc := PCTrabajador.esperando,
                                                   hilo := some (nuevoHilo w.avion) } })) := by
  obtain ⟨hb, hc⟩ := invariantes_prueba pistas0 capacidad0 inicial0 numA numB numC hA hB hC es p hp
  obtain ⟨hJ, hT, hKK, hL, hH⟩ := hc x
  refine ⟨?_, ?_, ?_, ?_⟩
  · simp only [maxReintentos]
    omega
  · rintro ⟨w, hw, hwx, hwpc⟩
    have hpos : 0 < descartes p x := by
      unfold descartes
      rw [suma_positiva_iff]
      exact ⟨w, hw, by simp [pesoDescartado, hwx, hwpc]⟩
    obtain ⟨k1, k2, k3⟩ := hKK hpos
    have hP : (p.trabajadores.map (pesoPendiente x)).sum = 0 := by
      have h1 := suma_le_suma (pesoPendiente x) (pesoFicha x) (by
        intro t
        obtain ⟨_, t2, _, _, t5⟩ := pesos_trabajador x t
        rw [t2, t5]
        by_cases ht : t.pc = PCTrabajador.verificar
        · simp [ht]
        · simp [ht]) p.trabajadores
      simp only [fichas] at k1
      omega
    refine ⟨?_, ?_, k1⟩
    · simp only [maxReintentos]
      omega
    · rw [hJ, hP, k2, k3]
      simp [maxReintentos]
  · intro w hw hwpc
    obtain ⟨_, hwE⟩ := hb.2.2.2 w hw
    obtain ⟨av, pc, hl⟩ := w
    simp only at hwpc
    subst hwpc
    simpa [estructuraOk] using hwE
  · intro i w hi hpc
    exact paso_verificar _ p hb i w hi hpc

/-- The run in which the only plane is denied at each attempt: five
invocations, all returned by the denial path, then the drop at the sixth
dequeue with the attempt counter at 6. -/
theorem reintentos_acotados_witness :
    ((pruebaTras 1 0 0 trazaSiempreDenegado).trabajadores.map fun w => w.hilo.map fun h => h.pc)
      = [some (PC.terminado Camino.denegado), some (PC.terminado Camino.denegado),
         some (PC.terminado Camino.denegado), some (PC.terminado Camino.denegado),
         some (PC.terminado Camino.denegado), none] ∧
    (invocaciones (pruebaTras 1 0 0 trazaSiempreDenegado) 0 : Int) = maxReintentos ∧
    intentosDe (pruebaTras 1 0 0 trazaSiempreDenegado).mapa 0 = maxReintentos + 1 ∧
    fichas (pruebaTras 1 0 0 trazaSiempreDenegado) 0 = 0 :=
  ⟨by decide,
   (reintentos_acotados [] 0 true 1 0 0 (by decide) (by decide) (by decide)
      trazaSiempreDenegado (pruebaTras 1 0 0 trazaSiempreDenegado) (by decide) 0).2.1
      ⟨⟨⟨0, "A", 101⟩, PCTrabajador.descartado, none⟩, by decide, rfl, rfl⟩⟩

/-- C10, a defect of the harness: a plane that is denied at every attempt must
not be counted as a success, and `ejecutarPrueba` counts it as one. On the
run of `ejecutarPrueba(1, 0, 0)` with the status 0 throughout,
`puedeAterrizar` is false for the plane, each of its five invocations
returns by the denial path of line 99 and the sixth dequeue drops it, yet its
flag `procesado` is true and the result is one success and no failure. -/
theorem denegado_contado_como_exito :
    ejecutarPruebaCon trazaSiempreDenegado (pruebaInicial [] 0 true 1 0 0)
      = some (pruebaTras 1 0 0 trazaSiempreDenegado) ∧
    (pruebaTras 1 0 0 trazaSiempreDenegado).g.estadoValor = 0 ∧
    puedeAterrizar { ID := 0, Categoria := "A", NumPasajeros := 101 } 0 = false ∧
    ((pruebaTras 1 0 0 trazaSiempreDenegado).trabajadores.map fun w => w.hilo.map fun h => h.pc)
      = [some (PC.terminado Camino.denegado), some (PC.terminado Camino.denegado),
         some (PC.terminado Camino.denegado), some (PC.terminado Camino.denegado),
         some (PC.terminado Camino.denegado), none] ∧
    (pruebaTras 1 0 0 trazaSiempreDenegado).mapa
      = [(0, { avion := { ID := 0, Categoria := "A", NumPasajeros := 101 },
               intentos := 6, procesado := true })] ∧
    resultadoPrueba (pruebaTras 1 0 0 trazaSiempreDenegado)
      = { avionesExito := 1, avionesFallo := 0 } := by
  decide

/-- Where the defect of the accounting of successes comes from: lines 106-110
set the flag `procesado` on the reception of `done`, which `procesarAvion`
allows on every path of return, the denial and the congestion included. So
at any moment of a run on a batch of non-negative sizes the flag of a plane
is true exactly when a goroutine has received `done` for it, and
`avionesExito` counts these planes whether they landed or not. -/
theorem procesado_al_recibir_done (pistas0 : List Pista) (capacidad0 : Int) (inicial0 : Bool)
    (numA numB numC : Int) (hA : 0 ≤ numA) (hB : 0 ≤ numB) (hC : 0 ≤ numC)
    (es : List EventoPrueba) (p : Prueba)
    (hp : ejecutarPruebaCon es (pruebaInicial pistas0 capacidad0 inicial0 numA numB numC)
      = some p) (x : Int) :
    (procesadoDe p.mapa x = true ↔
      ∃ w ∈ p.trabajadores, w.avion.ID = x ∧ w.pc = PCTrabajador.hecho) ∧
    (∀ w ∈ p.trabajadores, w.pc = PCTrabajador.hecho →
      ∃ h c, w.hilo = some h ∧ h.avion = w.avion ∧ h.pc = PC.terminado c) ∧
    (∀ (i : Nat) (w : Trabajador) (h : Hilo) (c : Camino), p.trabajadores[i]? = some w →
      w.pc = PCTrabajador.esperando → w.hilo = some h → h.pc = PC.terminado c →
      ∃ p1, pasoPrueba (EventoPrueba.trabajador i) p = some p1 ∧
        procesadoDe p1.mapa w.avion.ID = true) ∧
    (resultadoPrueba p).avionesExito
      = ((p.mapa.filter fun kv => kv.2.procesado).length : Int) ∧
    (resultadoPrueba p).avionesFallo
      = ((p.mapa.filter fun kv => !kv.2.procesado).length : Int) := by
  obtain ⟨hb, hc⟩ := invariantes_prueba pistas0 capacidad0 inicial0 numA numB numC hA hB hC es p hp
  obtain ⟨hJ, hT, hKK, hL, hH⟩ := hc x
  have hcont := contabilidad_invariante pistas0 capacidad0 inicial0 numA numB numC hA hB hC es p hp
  refine ⟨?_, ?_, ?_, hcont.2.2.2.2.2.1, hcont.2.2.2.2.2.2⟩
  · rw [hH]
    unfold hechos
    rw [suma_positiva_iff]
    constructor
    · rintro ⟨w, hw, hpos⟩
      refine ⟨w, hw, ?_⟩
      unfold pesoHecho at hpos
      by_contra hno
      simp [hno] at hpos
    · rintro ⟨w, hw, h1, h2⟩
      exact ⟨w, hw, by simp [pesoHecho, h1, h2]⟩
  · intro w hw hwpc
    obtain ⟨_, hwE⟩ := hb.2.2.2 w hw
    obtain ⟨av, pc, hl⟩ := w
    simp only at hwpc
    subst hwpc
    simpa [estructuraOk] using hwE
  · intro i w h c hi hpc hh hterm
    obtain ⟨hK, _, _, hW⟩ := hb
    obtain ⟨hwK, _⟩ := hW w (List.getElem?_mem hi)
    rw [← hK] at hwK
    have hpaso : pasoPrueba (EventoPrueba.trabajador i) p
        = some { p with
            mapa := modificarMapa (fun ea => { ea with procesado := true }) p.mapa w.avion.ID,
            trabajadores := p.trabajadores.set i { w with pc := PCTrabajador.hecho } } := by
      simp only [pasoPrueba, hi, pasoTrabajador, hpc, hh, hterm]
    refine ⟨_, hpaso, ?_⟩
    · show procesadoDe (modificarMapa (fun ea => { ea with procesado := true }) p.mapa
        w.avion.ID) w.avion.ID = true
      rw [procesadoDe_marcado p.mapa w.avion.ID w.avion.ID hwK]
      simp

/-- The same defect without any denial: in a test process the pool is empty
(only `Run` builds it), so with the status 8 the plane of
`ejecutarPrueba(1, 0, 0)` finds no runway at any of its five attempts, is
requeued by line 130 each time and dropped at the sixth dequeue; it has never
landed, and it is the one success of the result. -/
theorem sin_pista_contado_como_exito :
    ejecutarPruebaCon trazaSinPista (pruebaInicial [] 0 true 1 0 0)
      = some (pruebaTras 1 0 0 trazaSinPista) ∧
    (pruebaTras 1 0 0 trazaSinPista).g.estadoValor = 8 ∧
    ((pruebaTras 1 0 0 trazaSinPista).trabajadores.map fun w => w.hilo.map fun h => h.pc)
      = [some (PC.terminado Camino.sinPista), some (PC.terminado Camino.sinPista),
         some (PC.terminado Camino.sinPista), some (PC.terminado Camino.sinPista),
         some (PC.terminado Camino.sinPista), none] ∧
    resultadoPrueba (pruebaTras 1 0 0 trazaSinPista)
      = { avionesExito := 1, avionesFallo := 0 } := by
  decide

end Aeropuerto
